import Mathlib

set_option maxHeartbeats 1000000

/-!
Verification development for the Second-Brain bot's Conversational Task
Orchestration Engine.  The TypeScript sources under scrutiny are
`src/handlers/capture.ts`, `src/services/gemini.ts`, `src/services/notion.ts`
and `src/index.ts` (thread-update handler).  Strings are modelled as lists of
characters; the texts occurring in the claims are ASCII, where UTF-16 code
units coincide with code points.
-/

namespace SecondBrain

/-- Character-list model of a JavaScript string. -/
abbrev JStr := List Char

/-- Whitespace recognised by JavaScript `String.prototype.trim` restricted to
the ASCII range: space, tab, newline, carriage return, vertical tab, form
feed. -/
def isJsWs (c : Char) : Bool :=
  c = ' ' || c = '\t' || c = '\n' || c = '\r' || c = Char.ofNat 11 || c = Char.ofNat 12

/-- Model of `s.trim()`: drop leading and trailing whitespace. -/
def jsTrim (s : JStr) : JStr :=
  ((s.dropWhile isJsWs).reverse.dropWhile isJsWs).reverse

/-- ASCII lower-casing, modelling `toLowerCase` on the ASCII fragment. -/
def jsToLower (s : JStr) : JStr :=
  s.map (fun c => if 'A' ≤ c ∧ c ≤ 'Z' then Char.ofNat (c.toNat + 32) else c)

/-- Decide whether `pat` occurs at the head of `s`. -/
def headMatches : JStr → JStr → Bool
  | [], _ => true
  | _ :: _, [] => false
  | p :: ps, c :: cs => p = c && headMatches ps cs

/-- Model of `s.includes(pat)`: substring occurrence. -/
def jsIncludes (s pat : JStr) : Bool :=
  match s with
  | [] => headMatches pat []
  | _ :: rest => headMatches pat s || jsIncludes rest pat

/-- Split `s` at the first occurrence of `pat`, returning the part strictly
before the occurrence and the part strictly after it. -/
def splitFirst (pat : JStr) (s : JStr) : Option (JStr × JStr) :=
  match s with
  | [] => if headMatches pat [] then some ([], []) else none
  | c :: rest =>
    if headMatches pat s then some ([], s.drop pat.length)
    else match splitFirst pat rest with
      | some (pre, post) => some (c :: pre, post)
      | none => none

/-- Case-insensitive variant of `splitFirst` (ASCII), used for the
`/i`-flagged fenced-code-block patterns. -/
def splitFirstCI (pat : JStr) (s : JStr) : Option (JStr × JStr) :=
  match s with
  | [] => if headMatches (jsToLower pat) [] then some ([], []) else none
  | c :: rest =>
    if headMatches (jsToLower pat) (jsToLower s) then some ([], s.drop pat.length)
    else match splitFirstCI pat rest with
      | some (pre, post) => some (c :: pre, post)
      | none => none

/-- Model of the fenced-code-block regular expressions from `gemini.ts`.
The patterns have the shape: opening tag, `\s*\n?`, a lazy capture, `\n?`,
and three closing backticks; the source always applies `.trim()` to the
captured group, so the model returns the already-trimmed text between the
first occurrence of the tag and the first subsequent triple backtick (the
`\s*\n?` and `\n?` borders are whitespace and are absorbed by the trim). -/
def fenceExtract (tag : JStr) (s : JStr) : Option JStr :=
  match splitFirstCI tag s with
  | none => none
  | some (_, post) =>
    match splitFirst ([ '`', '`', '`' ]) post with
    | none => none
    | some (content, _) => some (jsTrim content)

/-- Opening tag of the JSON fenced-block pattern. -/
def jsonFenceTag : JStr := [ '`', '`', '`', 'j', 's', 'o', 'n' ]

/-- Opening tag of the generic fenced-block pattern. -/
def genericFenceTag : JStr := [ '`', '`', '`' ]

/-- Model of the greedy pattern matching a brace-delimited region: the match
spans from the first opening brace to the last closing brace that follows
it (the source applies `.trim()` to the whole match). -/
def braceExtract (s : JStr) : Option JStr :=
  match splitFirst [ Char.ofNat 123 ] s with
  | none => none
  | some (_, post) =>
    match splitFirst [ Char.ofNat 125 ] post.reverse with
    | none => none
    | some (_, revInner) =>
      some (jsTrim (Char.ofNat 123 :: revInner.reverse ++ [ Char.ofNat 125 ]))

/-! JSON values and a model of JavaScript `JSON.parse`.  Numbers keep their
source lexeme (no claim depends on numeric value), and objects are kept with
unique keys: as in a JavaScript object built by `JSON.parse`, a duplicated
key overwrites the earlier value in place. -/

/-- JSON value produced by the modelled `JSON.parse`. -/
inductive Json where
  | null : Json
  | bool (b : Bool) : Json
  | num (lexeme : JStr) : Json
  | str (s : JStr) : Json
  | arr (elems : List Json) : Json
  | obj (fields : List (JStr × Json)) : Json

/-- Property read on a JSON object: assoc lookup (keys are unique). -/
def getField (j : Json) (k : JStr) : Option Json :=
  match j with
  | Json.obj fields =>
    match fields.find? (fun f => f.fst = k) with
    | some f => some f.snd
    | none => none
  | _ => none

/-- Insert-or-overwrite of an object field, preserving the position of an
existing key as a JavaScript property assignment does. -/
def objInsert (fields : List (JStr × Json)) (k : JStr) (v : Json) :
    List (JStr × Json) :=
  match fields with
  | [] => [(k, v)]
  | f :: fs => if f.fst = k then (k, v) :: fs else f :: objInsert fs k v

/-- Property assignment on a JSON object (identity on non-objects; the
call sites handle non-objects separately). -/
def setField (j : Json) (k : JStr) (v : Json) : Json :=
  match j with
  | Json.obj fields => Json.obj (objInsert fields k v)
  | _ => j

/-- JavaScript truthiness of a JSON value: `null`, `false`, numeric zero and
the empty string are falsy; every object and array (even empty) is truthy. -/
def jsTruthy (j : Json) : Bool :=
  match j with
  | Json.null => false
  | Json.bool b => b
  | Json.num lex =>
    !(((lex.takeWhile (fun c => c ≠ 'e' && c ≠ 'E')).filter
        (fun c => '0' ≤ c && c ≤ '9')).all (fun c => c = '0'))
  | Json.str s => !s.isEmpty
  | Json.arr _ => true
  | Json.obj _ => true

/-- JSON whitespace (RFC 8259): space, tab, newline, carriage return. -/
def isJsonWs (c : Char) : Bool :=
  c = ' ' || c = '\t' || c = '\n' || c = '\r'

/-- Drop leading JSON whitespace. -/
def skipWs (s : JStr) : JStr := s.dropWhile isJsonWs

/-- Decimal digit test. -/
def isDigit (c : Char) : Bool := '0' ≤ c && c ≤ '9'

/-- Hexadecimal digit test (for `\u` escapes). -/
def isHexDigit (c : Char) : Bool :=
  isDigit c || ('a' ≤ c && c ≤ 'f') || ('A' ≤ c && c ≤ 'F')

/-- Numeric value of a hexadecimal digit. -/
def hexVal (c : Char) : Nat :=
  if isDigit c then c.toNat - 48
  else if 'a' ≤ c && c ≤ 'f' then c.toNat - 87
  else c.toNat - 55

/-- Parse the body of a JSON string literal (after the opening quote),
handling the escape sequences accepted by `JSON.parse` and rejecting raw
control characters.  Returns the decoded characters and the remainder after
the closing quote.  Fuel-indexed; callers supply enough fuel to consume the
whole remaining input. -/
def parseStringBodyAux : Nat → JStr → Option (JStr × JStr)
  | 0, _ => none
  | _, [] => none
  | fuel + 1, c :: rest =>
    if c = '"' then some ([], rest)
    else if c = '\\' then
      match rest with
      | [] => none
      | e :: rest2 =>
        let cont (decoded : Char) (rem : JStr) : Option (JStr × JStr) :=
          match parseStringBodyAux fuel rem with
          | some (tail, rem2) => some (decoded :: tail, rem2)
          | none => none
        if e = '"' then cont '"' rest2
        else if e = '\\' then cont '\\' rest2
        else if e = '/' then cont '/' rest2
        else if e = 'b' then cont (Char.ofNat 8) rest2
        else if e = 'f' then cont (Char.ofNat 12) rest2
        else if e = 'n' then cont '\n' rest2
        else if e = 'r' then cont '\r' rest2
        else if e = 't' then cont '\t' rest2
        else if e = 'u' then
          match rest2 with
          | h1 :: h2 :: h3 :: h4 :: rest3 =>
            if isHexDigit h1 && isHexDigit h2 && isHexDigit h3 && isHexDigit h4 then
              cont (Char.ofNat (((hexVal h1 * 16 + hexVal h2) * 16 + hexVal h3) * 16 + hexVal h4)) rest3
            else none
          | _ => none
        else none
    else if c.toNat < 32 then none
    else
      match parseStringBodyAux fuel rest with
      | some (tail, rem) => some (c :: tail, rem)
      | none => none

/-- String-literal body parsing with sufficient fuel for its input. -/
def parseStringBody (s : JStr) : Option (JStr × JStr) :=
  parseStringBodyAux (s.length + 1) s

/-- Parse the JSON number grammar `-? int frac? exp?`, returning the lexeme
and the remainder. -/
def parseNumber (s : JStr) : Option (JStr × JStr) :=
  let (sign, s1) :=
    match s with
    | '-' :: rest => ([ '-' ], rest)
    | _ => ([], s)
  match s1 with
  | [] => none
  | c :: _ =>
    if !isDigit c then none
    else
      let intPart := s1.takeWhile isDigit
      let s2 := s1.dropWhile isDigit
      if intPart.length > 1 && intPart.headD '0' = '0' then none
      else
        let (fracPart, s3) :=
          match s2 with
          | '.' :: rest =>
            let ds := rest.takeWhile isDigit
            if ds.isEmpty then ([ '!' ], rest) else ('.' :: ds, rest.dropWhile isDigit)
          | _ => ([], s2)
        if fracPart = [ '!' ] then none
        else
          let (expPart, s4) :=
            match s3 with
            | e :: rest =>
              if e = 'e' || e = 'E' then
                let (es, rest2) :=
                  match rest with
                  | '+' :: r => ([ '+' ], r)
                  | '-' :: r => ([ '-' ], r)
                  | _ => ([], rest)
                let ds := rest2.takeWhile isDigit
                if ds.isEmpty then ([ '!' ], rest2)
                else (e :: (es ++ ds), rest2.dropWhile isDigit)
              else ([], s3)
            | [] => ([], s3)
          if expPart = [ '!' ] then none
          else some (sign ++ intPart ++ fracPart ++ expPart, s4)

mutual

/-- Fuel-indexed parser for one JSON value; consumes leading whitespace. -/
def parseValue : Nat → JStr → Option (Json × JStr)
  | 0, _ => none
  | fuel + 1, s =>
    match skipWs s with
    | [] => none
    | c :: rest =>
      if c = Char.ofNat 123 then
        parseObjFields fuel rest []
      else if c = '[' then
        parseArrElems fuel rest []
      else if c = '"' then
        match parseStringBody rest with
        | some (chars, rem) => some (Json.str chars, rem)
        | none => none
      else if c = 't' then
        if headMatches ([ 'r', 'u', 'e' ]) rest then some (Json.bool true, rest.drop 3) else none
      else if c = 'f' then
        if headMatches ([ 'a', 'l', 's', 'e' ]) rest then some (Json.bool false, rest.drop 4) else none
      else if c = 'n' then
        if headMatches ([ 'u', 'l', 'l' ]) rest then some (Json.null, rest.drop 3) else none
      else
        match parseNumber (c :: rest) with
        | some (lex, rem) => some (Json.num lex, rem)
        | none => none

/-- Parse the members of an object after the opening brace; `acc` holds the
fields parsed so far (duplicate keys overwrite, as in JavaScript). -/
def parseObjFields : Nat → JStr → List (JStr × Json) → Option (Json × JStr)
  | 0, _, _ => none
  | fuel + 1, s, acc =>
    match skipWs s with
    | [] => none
    | c :: rest =>
      if c = Char.ofNat 125 then
        if acc.isEmpty then some (Json.obj [], rest) else none
      else if c = '"' then
        match parseStringBody rest with
        | none => none
        | some (key, rem) =>
          match skipWs rem with
          | ':' :: rem2 =>
            match parseValue fuel rem2 with
            | none => none
            | some (v, rem3) =>
              let acc2 := objInsert acc key v
              match skipWs rem3 with
              | ',' :: rem4 => parseObjFieldsMore fuel rem4 acc2
              | c2 :: rem4 =>
                if c2 = Char.ofNat 125 then some (Json.obj acc2, rem4) else none
              | [] => none
          | _ => none
      else none

/-- Continuation of object parsing after a comma (a member must follow). -/
def parseObjFieldsMore : Nat → JStr → List (JStr × Json) → Option (Json × JStr)
  | 0, _, _ => none
  | fuel + 1, s, acc =>
    match skipWs s with
    | '"' :: rest =>
      match parseStringBody rest with
      | none => none
      | some (key, rem) =>
        match skipWs rem with
        | ':' :: rem2 =>
          match parseValue fuel rem2 with
          | none => none
          | some (v, rem3) =>
            let acc2 := objInsert acc key v
            match skipWs rem3 with
            | ',' :: rem4 => parseObjFieldsMore fuel rem4 acc2
            | c2 :: rem4 =>
              if c2 = Char.ofNat 125 then some (Json.obj acc2, rem4) else none
            | [] => none
        | _ => none
    | _ => none

/-- Parse the elements of an array after the opening bracket. -/
def parseArrElems : Nat → JStr → List Json → Option (Json × JStr)
  | 0, _, _ => none
  | fuel + 1, s, acc =>
    match skipWs s with
    | ']' :: rest =>
      if acc.isEmpty then some (Json.arr [], rest) else none
    | _ =>
      match parseValue fuel s with
      | none => none
      | some (v, rem) =>
        match skipWs rem with
        | ',' :: rem2 => parseArrElemsMore fuel rem2 (acc ++ [v])
        | ']' :: rem2 => some (Json.arr (acc ++ [v]), rem2)
        | _ => none

/-- Continuation of array parsing after a comma (an element must follow). -/
def parseArrElemsMore : Nat → JStr → List Json → Option (Json × JStr)
  | 0, _, _ => none
  | fuel + 1, s, acc =>
    match parseValue fuel s with
    | none => none
    | some (v, rem) =>
      match skipWs rem with
      | ',' :: rem2 => parseArrElemsMore fuel rem2 (acc ++ [v])
      | ']' :: rem2 => some (Json.arr (acc ++ [v]), rem2)
      | _ => none

end

/-- Model of `JSON.parse`: the whole input, up to surrounding whitespace,
must be exactly one JSON value; on any violation the JavaScript original
throws, which the model renders as `none`. -/
def jsonDecode (s : JStr) : Option Json :=
  match parseValue (s.length + 1) s with
  | none => none
  | some (v, rem) => if (skipWs rem).isEmpty then some v else none

/-! Fallback signature hash (`generateDummyHash` in `gemini.ts`, first
revision): a 31-based rolling hash kept in 32-bit two's complement by
`hash = hash & hash`, then `Math.abs(hash).toString(36).substring(0, 8)`. -/

/-- Wrap an integer into signed 32-bit two's-complement range (`ToInt32`). -/
def toInt32 (n : Int) : Int :=
  let m := n % 4294967296
  if m < 2147483648 then m else m - 4294967296

/-- One step of the rolling hash: `hash = ((hash << 5) - hash) + charCode`
followed by the 32-bit conversion `hash = hash & hash`. -/
def hashStep (h : Int) (c : Char) : Int :=
  toInt32 (toInt32 (h * 32) - h + Int.ofNat c.toNat)

/-- Character for one base-36 digit, as produced by `Number.toString(36)`. -/
def digit36 (n : Nat) : Char :=
  if n < 10 then Char.ofNat (48 + n) else Char.ofNat (87 + n)

/-- Fuel-indexed base-36 digit emitter. -/
def toBase36Aux : Nat → Nat → JStr → JStr
  | 0, _, acc => acc
  | fuel + 1, n, acc =>
    if n < 36 then digit36 n :: acc
    else toBase36Aux fuel (n / 36) (digit36 (n % 36) :: acc)

/-- Base-36 rendering of a natural number (`toString(36)` for a
non-negative integer). -/
def toBase36 (n : Nat) : JStr := toBase36Aux (n + 1) n []

/-- Model of `generateDummyHash` from `gemini.ts`: the 32-bit rolling hash
of the text's code units, absolute value, base-36, first 8 characters. -/
def generateDummyHash (text : JStr) : JStr :=
  (toBase36 (text.foldl hashStep 0).natAbs).take 8

/-! Multi-extraction parser (`analyzeThought` in `gemini.ts`, first
revision).  The provider call is external; the model receives its outcome as
`Option JStr` (`none` models a thrown provider error, `some t` the response
text).  The rest of the function body is translated directly. -/

/-- Result record of `analyzeThought`: the `extractions` value and the
`thought_signature` value of the returned object.  The source performs no
schema validation, so both fields are arbitrary JSON values. -/
structure GeminiR where
  extractions : Json
  thought_signature : Json

/-- The single fallback extraction manufactured in the `catch` branch of
`analyzeThought`: title is the first 50 characters of the input, summary is
the input, category `Work`, priority `P3`, intent `new_task`. -/
def fallbackExtractionJson (text : JStr) : Json :=
  Json.obj
    [ ((("title").toList), Json.str (text.take 50))
    , ((("clean_summary").toList), Json.str text)
    , ((("category").toList), Json.str (("Work").toList))
    , ((("priority").toList), Json.str (("P3").toList))
    , ((("due_date").toList), Json.str [])
    , ((("assignee").toList), Json.null)
    , ((("intent").toList), Json.str (("new_task").toList))
    , ((("target_task_title").toList), Json.null)
    , ((("search_query").toList), Json.null) ]

/-- The complete fallback response of `analyzeThought`'s `catch` branch: one
manufactured extraction plus the locally computed dummy-hash signature. -/
def fallbackGeminiR (text : JStr) : GeminiR :=
  { extractions := Json.arr [fallbackExtractionJson text]
  , thought_signature := Json.str (generateDummyHash text) }

/-- JavaScript `x || d` on a possibly-absent JSON value. -/
def jsOrJson (x : Option Json) (d : Json) : Json :=
  match x with
  | some v => if jsTruthy v then v else d
  | none => d

/-- Construction of the successful `analyzeThought` return value from the
parsed object: `parsedResult.extractions || []` and
`parsedResult.thought_signature || generateDummyHash(text)`. -/
def buildGeminiR (text : JStr) (v : Json) : GeminiR :=
  { extractions := jsOrJson (getField v (("extractions").toList)) (Json.arr [])
  , thought_signature :=
      jsOrJson (getField v (("thought_signature").toList))
        (Json.str (generateDummyHash text)) }

/-- Candidate selection of `analyzeThought`: the response text is trimmed;
if the `\x60\x60\x60json` fenced pattern matches, its trimmed capture replaces the
candidate, else if the generic fenced pattern matches, its trimmed capture
does; the single `JSON.parse` attempt is made on the selected candidate. -/
def selectCandidate (responseText : JStr) : JStr :=
  let clean := jsTrim responseText
  match fenceExtract jsonFenceTag clean with
  | some captured => captured
  | none =>
    match fenceExtract genericFenceTag clean with
    | some captured => captured
    | none => clean

/-- Outcome construction from the single decode attempt: a failed decode
falls into the `catch` fallback; a decoded `null` also does, because the
subsequent property access `parsedResult.extractions` throws; any other
decoded value is consumed as-is. -/
def buildFromDecode (text : JStr) (r : Option Json) : GeminiR :=
  match r with
  | none => fallbackGeminiR text
  | some Json.null => fallbackGeminiR text
  | some v => buildGeminiR text v

/-- Model of the first-revision `analyzeThought`: one decode attempt on the
selected candidate; a provider error, a failed decode, or a decoded `null`
all land in the `catch` fallback. -/
def analyzeThought (text : JStr) (providerText : Option JStr) : GeminiR :=
  match providerText with
  | none => fallbackGeminiR text
  | some responseText => buildFromDecode text (jsonDecode (selectCandidate responseText))

/-- Modelled from the spec's wording for the claimed strategy order: (1)
direct structured decode, (2) `\x60\x60\x60json` fenced block, (3) generic fenced
block, (4) first brace-delimited object anywhere in the text, first success
wins; used only to compare the specified cascade against the source. -/
def claimedDecode (t : JStr) : Option Json :=
  match jsonDecode (jsTrim t) with
  | some v => some v
  | none =>
    match (fenceExtract jsonFenceTag t).bind jsonDecode with
    | some v => some v
    | none =>
      match (fenceExtract genericFenceTag t).bind jsonDecode with
      | some v => some v
      | none => (braceExtract t).bind jsonDecode

/-- Modelled from the spec's wording: the claimed five-strategy parser,
falling back to the manufactured `new_task` extraction when no strategy
decodes the provider text. -/
def claimedAnalyzeThought (text : JStr) (providerText : Option JStr) : GeminiR :=
  match providerText with
  | none => fallbackGeminiR text
  | some t =>
    match claimedDecode t with
    | some v => buildGeminiR text v
    | none => fallbackGeminiR text

/-! Thread-update classifier (`updateWithContext` in `gemini.ts`).  All
revisions of the file agree on the logic modelled here. -/

/-- Occurrence test for the `\d\x7b4\x7d-\d\x7b2\x7d-\d\x7b2\x7d` date pattern at the head
of the string. -/
def datePatternAt (s : JStr) : Bool :=
  match s with
  | d1 :: d2 :: d3 :: d4 :: h1 :: m1 :: m2 :: h2 :: a1 :: a2 :: _ =>
    isDigit d1 && isDigit d2 && isDigit d3 && isDigit d4 && h1 = '-' &&
      isDigit m1 && isDigit m2 && h2 = '-' && isDigit a1 && isDigit a2
  | _ => false

/-- Occurrence test for the date pattern anywhere in the string. -/
def hasDatePattern : JStr → Bool
  | [] => false
  | c :: rest => datePatternAt (c :: rest) || hasDatePattern rest

/-- Local keyword heuristics used when every JSON extraction attempt fails:
substring checks on the lower-cased reply choosing among `completed`,
`in_progress`, `rescheduled` and `detail`; the produced object carries no
`thought_signature` field. -/
def keywordFallback (reply : JStr) : Json :=
  let lowerReply := jsToLower reply
  let action : JStr :=
    if jsIncludes lowerReply (("done").toList) ||
        jsIncludes lowerReply (("complete").toList) then ("completed").toList
    else if jsIncludes lowerReply (("doing").toList) ||
        jsIncludes lowerReply (("progress").toList) ||
        jsIncludes lowerReply (("start").toList) then ("in_progress").toList
    else if jsIncludes lowerReply (("reschedule").toList) ||
        hasDatePattern lowerReply then ("rescheduled").toList
    else ("detail").toList
  Json.obj
    [ ((("action").toList), Json.str action)
    , ((("updates").toList), Json.obj []) ]

/-- Parsing pipeline of `updateWithContext`: direct decode of the trimmed
response; otherwise the `\x60\x60\x60json` fenced pattern, the generic fenced
pattern and the brace pattern are tried on the raw response in that order;
a decode failure of the extracted string, or no extracted string at all,
selects the keyword fallback. -/
def parseUpdate (reply responseText : JStr) : Json :=
  match jsonDecode (jsTrim responseText) with
  | some v => v
  | none =>
    let jsonString : Option JStr :=
      match fenceExtract jsonFenceTag responseText with
      | some c => some c
      | none =>
        match fenceExtract genericFenceTag responseText with
        | some c => some c
        | none => braceExtract responseText
    match jsonString with
    | some js =>
      match jsonDecode js with
      | some v => v
      | none => keywordFallback reply
    | none => keywordFallback reply

/-- Observable outcome of `updateWithContext`: the returned JSON value and
the value of its `thought_signature` property after the preservation step. -/
structure UpdateRes where
  value : Json
  signature : Json

/-- The `catch` fallback of `updateWithContext`: action `detail`, a note
holding the raw reply, and the original signature. -/
def catchFallbackUpdate (originalSignature reply : JStr) : UpdateRes :=
  { value :=
      Json.obj
        [ ((("action").toList), Json.str (("detail").toList))
        , ((("updates").toList),
            Json.obj [ ((("note").toList), Json.str reply) ])
        , ((("thought_signature").toList), Json.str originalSignature) ]
  , signature := Json.str originalSignature }

/-- The signature-preservation step `if (!updateResult.thought_signature)
updateResult.thought_signature = originalSignature`.  On an object the
property is read and, when falsy, overwritten; on an array the property read
yields `undefined` and the assignment attaches an expando property, so the
observable signature is the original; on `null` or a primitive the strict-
mode property access throws and the outer `catch` returns its fallback. -/
def patchUpdateResult (originalSignature reply : JStr) (j : Json) : UpdateRes :=
  match j with
  | Json.obj fields =>
    let sigKey : JStr := ("thought_signature").toList
    let current := getField (Json.obj fields) sigKey
    if jsTruthy (jsOrJson current Json.null) then
      { value := Json.obj fields, signature := jsOrJson current Json.null }
    else
      let patched := setField (Json.obj fields) sigKey (Json.str originalSignature)
      { value := patched, signature := Json.str originalSignature }
  | Json.arr elems => { value := Json.arr elems, signature := Json.str originalSignature }
  | _ => catchFallbackUpdate originalSignature reply

/-- Model of `updateWithContext`: provider outcome, parsing pipeline and the
signature-preservation step; a provider error takes the `catch` fallback. -/
def updateWithContext (originalSignature reply : JStr) (providerText : Option JStr) :
    UpdateRes :=
  match providerText with
  | none => catchFallbackUpdate originalSignature reply
  | some responseText =>
    patchUpdateResult originalSignature reply (parseUpdate reply responseText)

/-! Record store (`notion.ts`).  The filter construction, the broad-search
condition, the `page_size: 15` cap and the property payload of page creation
are translated from the source; the persistence of a created page and the
behaviour of `archivePage` (absent from the source snapshot, which only
contains its callers) are modelled from the spec: `create(fields)` persists
the given fields, `archive(id)` soft-deletes, and queries return only
non-archived records. -/

/-- Fuel-indexed decimal digit emitter. -/
def toDecimalAux : Nat → Nat → JStr → JStr
  | 0, _, acc => acc
  | fuel + 1, n, acc =>
    if n < 10 then digit36 n :: acc
    else toDecimalAux fuel (n / 10) (digit36 (n % 10) :: acc)

/-- Decimal rendering of a natural number. -/
def natToJStr (n : Nat) : JStr := toDecimalAux (n + 1) n []

/-- One parsed intent unit (`ThoughtExtraction` in `types/index.ts`). -/
structure ThoughtExtraction where
  title : JStr
  clean_summary : JStr
  category : JStr
  priority : JStr
  due_date : JStr
  assignee : Option JStr
  intent : JStr
  target_task_title : Option JStr
  search_query : Option JStr
deriving DecidableEq

/-- One record of the store, with the soft-deletion flag that Notion keeps
on archived pages. -/
structure StoredTask where
  pageId : JStr
  title : JStr
  summary : JStr
  category : JStr
  priority : JStr
  dueDate : Option JStr
  status : JStr
  assignee : JStr
  thoughtSignature : JStr
  slackThreadTS : JStr
  archived : Bool
deriving DecidableEq

/-- The record store: the list of pages and a counter for fresh page ids. -/
structure NStore where
  pages : List StoredTask
  nextId : Nat
deriving DecidableEq

/-- The property payload built by `createPageFromThought` (`notion.ts`
lines 116-146): one field per Notion property, with `Status` fixed to
`Todo`, the due date omitted when the extraction has none, and the caller's
signature and thread timestamp stored verbatim. -/
structure PageProperties where
  titleContent : JStr
  summaryContent : JStr
  categoryName : JStr
  priorityName : JStr
  dueDateStart : Option JStr
  statusName : JStr
  assignToContent : JStr
  thoughtSignatureContent : JStr
  slackThreadTSContent : JStr
deriving DecidableEq

/-- Translation of the `properties` object literal of
`createPageFromThought`. -/
def buildPageProperties (extraction : ThoughtExtraction)
    (thoughtSignature slackThreadTS : JStr) : PageProperties :=
  { titleContent := extraction.title
  , summaryContent := extraction.clean_summary
  , categoryName := extraction.category
  , priorityName := extraction.priority
  , dueDateStart := if extraction.due_date.isEmpty then none else some extraction.due_date
  , statusName := ("Todo").toList
  , assignToContent := extraction.assignee.getD []
  , thoughtSignatureContent := thoughtSignature
  , slackThreadTSContent := slackThreadTS }

/-- Lexicographic character-list comparison used by the sort model. -/
def jstrLe : JStr → JStr → Bool
  | [], _ => true
  | _ :: _, [] => false
  | a :: as, b :: bs => if a = b then jstrLe as bs else decide (a.toNat ≤ b.toNat)

/-- Sort key of `searchTasks`: priority ascending, then due date ascending
(records without a due date last).  Notion's exact select-option collation
is not observable from the source; no claim depends on the produced order,
only on the multiset of results. -/
def taskLe (a b : StoredTask) : Bool :=
  if a.priority = b.priority then
    match a.dueDate, b.dueDate with
    | none, none => true
    | some _, none => true
    | none, some _ => false
    | some x, some y => jstrLe x y
  else jstrLe a.priority b.priority

/-- Ordered insertion for the sort model. -/
def insertLe (le : StoredTask → StoredTask → Bool) (a : StoredTask) :
    List StoredTask → List StoredTask
  | [] => [a]
  | b :: bs => if le a b then a :: b :: bs else b :: insertLe le a bs

/-- Insertion sort (a permutation of its input; only the multiset of
results matters to the claims). -/
def sortLe (le : StoredTask → StoredTask → Bool) :
    List StoredTask → List StoredTask
  | [] => []
  | a :: as => insertLe le a (sortLe le as)

/-- Translation of `searchTasks` (`notion.ts` lines 471-529): the broad
search (`all`, `everything`, `everyone`, or an absent/empty query) filters on
`Status does_not_equal Done` only; otherwise the filter is a disjunction of
title contains, assignee contains and category equals; the query runs with
`page_size: 15`, so at most the first 15 sorted results are returned. -/
def searchMatches (query : Option JStr) (p : StoredTask) : Bool :=
  let queryLower := jsToLower (query.getD [])
  let isBroadSearch := queryLower.isEmpty ||
    queryLower == ("all").toList ||
    queryLower == ("everything").toList ||
    queryLower == ("everyone").toList
  if isBroadSearch then !(p.status == ("Done").toList)
  else
    let q := query.getD []
    jsIncludes p.title q || jsIncludes p.assignee q || p.category == q

/-- The full broad-search pipeline: filter (archived pages never surface
from a Notion query), sort, first page of 15. -/
def searchTasksImpl (query : Option JStr) (s : NStore) : List StoredTask :=
  ((sortLe taskLe (s.pages.filter (fun p => !p.archived && searchMatches query p))).take 15)

/-- Creation of one page (`createPageFromThought`): the property payload is
built by `buildPageProperties`; persistence of the payload under a fresh id
is modelled from the spec (`create(fields) -> id + locator`). -/
def createPageImpl (extraction : ThoughtExtraction)
    (thoughtSignature slackThreadTS : JStr) (s : NStore) :
    (JStr × JStr) × NStore :=
  let props := buildPageProperties extraction thoughtSignature slackThreadTS
  let pid := ("page-").toList ++ natToJStr s.nextId
  let url := ("https://notion.so/").toList ++ pid
  let page : StoredTask :=
    { pageId := pid
    , title := props.titleContent
    , summary := props.summaryContent
    , category := props.categoryName
    , priority := props.priorityName
    , dueDate := props.dueDateStart
    , status := props.statusName
    , assignee := props.assignToContent
    , thoughtSignature := props.thoughtSignatureContent
    , slackThreadTS := props.slackThreadTSContent
    , archived := false }
  ((pid, url), { pages := s.pages ++ [page], nextId := s.nextId + 1 })

/-- Modelled from the spec: `archive(id)` soft-deletes the record with the
given id (the `archivePage` adapter method is absent from the source
snapshot, which only contains its call sites). -/
def archivePageImpl (pageId : JStr) (s : NStore) : NStore :=
  { s with pages := s.pages.map (fun p =>
      if p.pageId = pageId then { p with archived := true } else p) }

/-- Translation of `updatePageStatus`: overwrite the status property. -/
def updatePageStatusImpl (pageId status : JStr) (s : NStore) : NStore :=
  { s with pages := s.pages.map (fun p =>
      if p.pageId = pageId then { p with status := status } else p) }

/-- Translation of `appendNote`: append to the summary, or start it when it
was empty. -/
def appendNoteImpl (pageId note : JStr) (s : NStore) : NStore :=
  { s with pages := s.pages.map (fun p =>
      if p.pageId = pageId then
        { p with summary :=
            if p.summary.isEmpty then note
            else p.summary ++ ("\n\n[Update]: ").toList ++ note }
      else p) }

/-- Translation of `updateDueDate`: overwrite the due-date property. -/
def updateDueDateImpl (pageId dueDate : JStr) (s : NStore) : NStore :=
  { s with pages := s.pages.map (fun p =>
      if p.pageId = pageId then { p with dueDate := some dueDate } else p) }

/-- Number of archived pages of a store. -/
def numArchived (s : NStore) : Nat :=
  s.pages.countP (fun p => p.archived)

/-- Whether the page with the given id is archived. -/
def isArchived (s : NStore) (pageId : JStr) : Bool :=
  s.pages.any (fun p => p.pageId = pageId && p.archived)

/-! Tool-call dispatcher and agentic loop (`capture.ts`, first revision).
The task-store operations are received as an abstract interface whose
methods may fail (`Except`), modelling thrown adapter errors; the concrete
instance below ties the interface to the store model. -/

/-- Store interface seen by the dispatcher and the thread-update flow.  Each
method returns its outcome and the store state reached, even on failure. -/
structure StoreOps (σ : Type) where
  searchTasks : Option JStr → σ → Except JStr (List StoredTask) × σ
  createPageFromThought : ThoughtExtraction → JStr → JStr → σ → Except JStr (JStr × JStr) × σ
  updatePageStatus : JStr → JStr → σ → Except JStr Unit × σ
  archivePage : JStr → σ → Except JStr Unit × σ
  appendNote : JStr → JStr → σ → Except JStr Unit × σ
  updateDueDate : JStr → JStr → σ → Except JStr Unit × σ

/-- The concrete store adapter: every method total and successful. -/
def notionOps : StoreOps NStore :=
  { searchTasks := fun q s => (Except.ok (searchTasksImpl q s), s)
  , createPageFromThought := fun e sig ts s =>
      let (res, s') := createPageImpl e sig ts s
      (Except.ok res, s')
  , updatePageStatus := fun pid st s => (Except.ok (), updatePageStatusImpl pid st s)
  , archivePage := fun pid s => (Except.ok (), archivePageImpl pid s)
  , appendNote := fun pid note s => (Except.ok (), appendNoteImpl pid note s)
  , updateDueDate := fun pid d s => (Except.ok (), updateDueDateImpl pid d s) }

/-- Arguments of one tool call; every field optional, as the source reads
them from an `any`-typed object. -/
structure ToolArgs where
  query : Option JStr := none
  title : Option JStr := none
  category : Option JStr := none
  priority : Option JStr := none
  dueDate : Option JStr := none
  summary : Option JStr := none
  pageId : Option JStr := none
  status : Option JStr := none
  searchTerm : Option JStr := none
  note : Option JStr := none
deriving DecidableEq

/-- One tool call requested by the provider. -/
structure ToolCall where
  name : JStr
  args : ToolArgs
deriving DecidableEq

/-- Structured result of one tool execution, mirroring the object literals
of the dispatcher's `switch`. -/
inductive ToolResult where
  | tasksRes (tasks : List StoredTask)
  | createRes (pageId url : JStr)
  | successRes
  | archiveRes (count : Nat)
  | errorRes (msg : JStr)
deriving DecidableEq

/-- One entry of the `functionResponses` batch sent back to the provider. -/
structure FuncResponse where
  name : JStr
  response : ToolResult
deriving DecidableEq

/-- JavaScript `x || d` on an optional string argument. -/
def jsOrStr (x : Option JStr) (d : JStr) : JStr :=
  match x with
  | some s => if s.isEmpty then d else s
  | none => d

/-- Sequential archiving of the search hits inside the `archive_tasks`
case: stops at the first failing `archivePage`, keeping the partial state. -/
def archiveSeq (ops : StoreOps σ) : List StoredTask → σ → Except JStr Unit × σ
  | [], s => (Except.ok (), s)
  | t :: ts, s =>
    match ops.archivePage t.pageId s with
    | (Except.ok _, s') => archiveSeq ops ts s'
    | (Except.error m, s') => (Except.error m, s')

/-- The five declared tool names. -/
def knownToolNames : List JStr :=
  [ ("search_tasks").toList, ("create_task").toList, ("update_task_status").toList
  , ("archive_tasks").toList, ("add_task_note").toList ]

/-- The extraction literal built inline by the `create_task` case. -/
def createTaskExtraction (args : ToolArgs) : ThoughtExtraction :=
  { title := args.title.getD []
  , clean_summary := jsOrStr args.summary []
  , category := jsOrStr args.category (("Work").toList)
  , priority := jsOrStr args.priority (("P3").toList)
  , due_date := jsOrStr args.dueDate []
  , assignee := none
  , intent := ("new_task").toList
  , target_task_title := none
  , search_query := none }

/-- Translation of the dispatcher `switch` of `handleCapture` (lines
49-104): each case wrapped by the surrounding `try`/`catch`, so a failing
operation is recorded as an error result; an unrecognised name takes the
`default` branch.  Returns the `result` value and the state reached. -/
def dispatchResult (ops : StoreOps σ) (eventTs : JStr) (call : ToolCall) (s : σ) :
    ToolResult × σ :=
  if call.name = ("search_tasks").toList then
    match ops.searchTasks call.args.query s with
    | (Except.ok tasks, s') => (ToolResult.tasksRes tasks, s')
    | (Except.error m, s') => (ToolResult.errorRes m, s')
  else if call.name = ("create_task").toList then
    match ops.createPageFromThought (createTaskExtraction call.args)
        (("agentic_create").toList) eventTs s with
    | (Except.ok (pid, url), s') => (ToolResult.createRes pid url, s')
    | (Except.error m, s') => (ToolResult.errorRes m, s')
  else if call.name = ("update_task_status").toList then
    match ops.updatePageStatus (call.args.pageId.getD []) (call.args.status.getD []) s with
    | (Except.ok _, s') => (ToolResult.successRes, s')
    | (Except.error m, s') => (ToolResult.errorRes m, s')
  else if call.name = ("archive_tasks").toList then
    match ops.searchTasks call.args.searchTerm s with
    | (Except.error m, s') => (ToolResult.errorRes m, s')
    | (Except.ok tasksToArchive, s') =>
      match archiveSeq ops tasksToArchive s' with
      | (Except.ok _, s'') => (ToolResult.archiveRes tasksToArchive.length, s'')
      | (Except.error m, s'') => (ToolResult.errorRes m, s'')
  else if call.name = ("add_task_note").toList then
    match ops.appendNote (call.args.pageId.getD []) (call.args.note.getD []) s with
    | (Except.ok _, s') => (ToolResult.successRes, s')
    | (Except.error m, s') => (ToolResult.errorRes m, s')
  else (ToolResult.errorRes (("Unknown tool").toList), s)

/-- One dispatched call packaged as the `functionResponse` entry pushed for
it: exactly one entry per call, carrying the call's name. -/
def dispatchCall (ops : StoreOps σ) (eventTs : JStr) (call : ToolCall) (s : σ) :
    FuncResponse × σ :=
  let (r, s') := dispatchResult ops eventTs call s
  ({ name := call.name, response := r }, s')

/-- Progress notifications and failure reports sent to the chat gateway,
tagged by originating call site. -/
inductive Msg where
  | progress (text : JStr)
  | finalAnswer (text : JStr)
  | link (url : JStr) (title : JStr)
  | warn (text : JStr)
  | failure (text : JStr)
deriving DecidableEq

/-- Whether a message is a failure report. -/
def isFailMsg (m : Msg) : Bool :=
  match m with
  | Msg.failure _ => true
  | _ => false

/-- Count of failure messages in a transcript. -/
def countFail (msgs : List Msg) : Nat :=
  msgs.countP (fun m => isFailMsg m)

/-- Execution of one tool-call batch, in order, sequentially: a progress
notification and exactly one result per call, threading the store state. -/
def execBatch (ops : StoreOps σ) (eventTs : JStr) :
    List ToolCall → σ → List Msg × List FuncResponse × σ
  | [], s => ([], [], s)
  | c :: cs, s =>
    let (fr, s') := dispatchCall ops eventTs c s
    let (msgs, frs, s'') := execBatch ops eventTs cs s'
    (Msg.progress ((("Executing: ").toList) ++ c.name) :: msgs, fr :: frs, s'')

/-- One provider response of the agentic conversation: the requested tool
calls (absent when the provider gives a final answer) and the response
text. -/
structure ProviderResponse where
  functionCalls : Option (List ToolCall)
  text : JStr
deriving DecidableEq

/-- The loop guard `response.functionCalls()?.length`: defined and
non-empty. -/
def jsHasCalls (r : ProviderResponse) : Bool :=
  !(r.functionCalls.getD []).isEmpty

/-- The provider-side continuation `chat.sendMessage`: from the batches sent
so far to the next response, or a thrown provider error. -/
def ChatFn : Type := List (List FuncResponse) → Except JStr ProviderResponse

/-- Outcome of the agentic loop. -/
structure LoopOut (σ : Type) where
  msgs : List Msg
  batches : List (List FuncResponse)
  finalResp : Option ProviderResponse
  err : Option JStr
  state : σ

/-- Translation of the `while` loop of `handleCapture` (lines 33-109).  The
source counts provider turns up to `MAX_CALLS = 5`; the model recurses on
the remaining budget `MAX_CALLS - callCount`, so the recursion is structural
and the executed batches are `batches.length`. -/
def agenticLoopAux (ops : StoreOps σ) (eventTs : JStr) (chat : ChatFn) :
    Nat → ProviderResponse → σ → List (List FuncResponse) → List Msg → LoopOut σ
  | 0, resp, s, hist, msgs =>
    { msgs := msgs, batches := hist, finalResp := some resp, err := none, state := s }
  | budget + 1, resp, s, hist, msgs =>
    if jsHasCalls resp then
      let calls := resp.functionCalls.getD []
      let (bmsgs, results, s') := execBatch ops eventTs calls s
      let hist' := hist ++ [results]
      match chat hist' with
      | Except.error e =>
        { msgs := msgs ++ bmsgs, batches := hist', finalResp := none, err := some e, state := s' }
      | Except.ok resp' => agenticLoopAux ops eventTs chat budget resp' s' hist' (msgs ++ bmsgs)
    else
      { msgs := msgs, batches := hist, finalResp := some resp, err := none, state := s }

/-- Inbound chat event (`SlackMessageEvent`). -/
structure SlackEvent where
  channel : JStr
  text : JStr
  ts : JStr
  thread_ts : Option JStr

/-- External dependencies of one `handleCapture` run: the store interface
with its initial state and the outcome of `startAgenticChat` (the initial
provider response plus continuation, or a thrown provider error). -/
structure CaptureDeps (σ : Type) where
  ops : StoreOps σ
  state0 : σ
  startChat : Except JStr (ProviderResponse × ChatFn)

/-- Observable outcome of `handleCapture`: transcript, executed batches,
final provider response, the caught exception (if any) and the store
state. -/
structure CaptureOut (σ : Type) where
  msgs : List Msg
  batches : List (List FuncResponse)
  finalResp : Option ProviderResponse
  err : Option JStr
  state : σ

/-- The two status messages sent before the loop starts. -/
def captureStatusMsgs : List Msg :=
  [ Msg.progress (("Understanding your request...").toList)
  , Msg.progress (("Thinking agentically...").toList) ]

/-- Assembly of the capture outcome after the loop: a clean loop exit edits
the final answer into the status message; an escaped exception carries the
transcript so far. -/
def captureAssemble (lo : LoopOut σ) : CaptureOut σ :=
  match lo.err, lo.finalResp with
  | none, some r =>
    { msgs := captureStatusMsgs ++ lo.msgs ++ [Msg.finalAnswer r.text]
    , batches := lo.batches, finalResp := some r, err := none, state := lo.state }
  | e, fr =>
    { msgs := captureStatusMsgs ++ lo.msgs, batches := lo.batches, finalResp := fr, err := e
    , state := lo.state }

/-- The body of the `try` block of the agentic `handleCapture`: thread
replies return immediately; otherwise the two status messages, the agentic
loop, and the final answer edit.  `err` carries an exception escaping to the
outer `catch`. -/
def innerCapture (deps : CaptureDeps σ) (event : SlackEvent) : CaptureOut σ :=
  if (event.thread_ts).isSome then
    { msgs := [], batches := [], finalResp := none, err := none, state := deps.state0 }
  else
    match deps.startChat with
    | Except.error e =>
      { msgs := captureStatusMsgs, batches := [], finalResp := none, err := some e
      , state := deps.state0 }
    | Except.ok (resp0, chat) =>
      captureAssemble (agenticLoopAux deps.ops event.ts chat 5 resp0 deps.state0 [] [])

/-- Translation of `handleCapture` (lines 10-128): the `try` body plus the
outer `catch`, which sends exactly one failure message and returns
normally.  The `err` field records the caught exception. -/
def handleCapture (deps : CaptureDeps σ) (event : SlackEvent) : CaptureOut σ :=
  let o := innerCapture deps event
  match o.err with
  | some e =>
    { o with msgs := o.msgs ++ [Msg.failure ((("Failed to capture thought: ").toList) ++ e)] }
  | none => o

/-- Batch archiving of the legacy `delete_task` branch: archive every
search hit in order (the concrete adapter cannot fail). -/
def archiveAllImpl : List StoredTask → NStore → NStore
  | [], s => s
  | t :: ts, s => archiveAllImpl ts (archivePageImpl t.pageId s)

/-- Translation of the legacy `delete_task` branch of the multi-extraction
`handleCapture` (lines 194-229 of the second revision): search by the
target title, archive every match, report the count; a miss produces a
warning. -/
def legacyDeleteFlow (deleteTerm : JStr) (s : NStore) : List Msg × NStore :=
  let msg1 := Msg.progress ((("Searching for tasks related to ").toList) ++ deleteTerm)
  let tasksToDelete := searchTasksImpl (some deleteTerm) s
  if tasksToDelete.isEmpty then
    ([ msg1, Msg.warn ((("Could not find any tasks matching ").toList) ++ deleteTerm) ], s)
  else
    let s' := archiveAllImpl tasksToDelete s
    ([ msg1
     , Msg.progress ((("Found ").toList) ++ natToJStr tasksToDelete.length ++ (" task(s). Archiving now...").toList)
     , Msg.progress ((("Successfully removed ").toList) ++ natToJStr tasksToDelete.length ++ (" task(s) related to ").toList ++ deleteTerm) ], s')

/-! Thread-update flow (`handleThreadUpdate` in the second revision of
`index.ts`, lines 185-298). -/

/-- External dependencies of one `handleThreadUpdate` run: the store
interface and initial state, the result of the thread lookup (the source's
`findPageByThreadTS` catches internally and returns `null` on failure) and
the provider outcome consumed by `updateWithContext`. -/
structure ThreadDeps (σ : Type) where
  ops : StoreOps σ
  state0 : σ
  findResult : Option StoredTask
  providerText : Option JStr

/-- Observable outcome of `handleThreadUpdate`. -/
structure ThreadOut (σ : Type) where
  msgs : List Msg
  err : Option JStr
  state : σ

/-- The body of `handleThreadUpdate`'s `try` block: lookup, classification
via `updateWithContext`, and application of the classified action; a store
mutation failure escapes as `err`. -/
def innerThreadUpdate (deps : ThreadDeps σ) (event : SlackEvent) : ThreadOut σ :=
  match event.thread_ts with
  | none => { msgs := [], err := none, state := deps.state0 }
  | some _ =>
    match deps.findResult with
    | none =>
      { msgs := [Msg.warn (("Could not find the original thought for this thread.").toList)]
      , err := none, state := deps.state0 }
    | some task =>
      let sigWarn : List Msg :=
        if task.thoughtSignature.isEmpty then
          [Msg.warn (("Missing thought signature for this task.").toList)]
        else []
      let msgs0 := sigWarn ++ [Msg.progress (("Analyzing your update...").toList)]
      let updateResult := updateWithContext task.thoughtSignature event.text deps.providerText
      let actionJ : Option JStr :=
        match getField updateResult.value (("action").toList) with
        | some (Json.str a) => some a
        | _ => none
      if actionJ = some (("completed").toList) then
        match deps.ops.updatePageStatus task.pageId (("Done").toList) deps.state0 with
        | (Except.ok _, s') =>
          { msgs := msgs0 ++ [Msg.progress (("Task marked as done!").toList)], err := none, state := s' }
        | (Except.error e, s') => { msgs := msgs0, err := some e, state := s' }
      else if actionJ = some (("in_progress").toList) then
        match deps.ops.updatePageStatus task.pageId (("In Progress").toList) deps.state0 with
        | (Except.ok _, s') =>
          { msgs := msgs0 ++ [Msg.progress (("Status updated to In Progress!").toList)], err := none, state := s' }
        | (Except.error e, s') => { msgs := msgs0, err := some e, state := s' }
      else if actionJ = some (("detail").toList) then
        let note : JStr :=
          match (getField updateResult.value (("updates").toList)).bind
              (fun u => getField u (("note").toList)) with
          | some (Json.str n) => if n.isEmpty then event.text else n
          | _ => event.text
        match deps.ops.appendNote task.pageId note deps.state0 with
        | (Except.ok _, s') =>
          { msgs := msgs0 ++ [Msg.progress ((("Added note: ").toList) ++ note.take 100)], err := none, state := s' }
        | (Except.error e, s') => { msgs := msgs0, err := some e, state := s' }
      else if actionJ = some (("rescheduled").toList) then
        match (getField updateResult.value (("updates").toList)).bind
            (fun u => getField u (("due_date").toList)) with
        | some (Json.str d) =>
          if d.isEmpty then { msgs := msgs0, err := none, state := deps.state0 }
          else
            match deps.ops.updateDueDate task.pageId d deps.state0 with
            | (Except.ok _, s') =>
              { msgs := msgs0 ++ [Msg.progress ((("Rescheduled to ").toList) ++ d)], err := none, state := s' }
            | (Except.error e, s') => { msgs := msgs0, err := some e, state := s' }
        | _ => { msgs := msgs0, err := none, state := deps.state0 }
      else if actionJ = some (("deleted").toList) then
        match deps.ops.archivePage task.pageId deps.state0 with
        | (Except.ok _, s') =>
          { msgs := msgs0 ++ [Msg.progress (("Task has been archived/removed.").toList)], err := none, state := s' }
        | (Except.error e, s') => { msgs := msgs0, err := some e, state := s' }
      else
        { msgs := msgs0 ++ [Msg.progress (("Got it!").toList)], err := none, state := deps.state0 }

/-- Translation of `handleThreadUpdate`: the `try` body plus the outer
`catch`, which sends exactly one failure message and returns normally. -/
def handleThreadUpdate (deps : ThreadDeps σ) (event : SlackEvent) : ThreadOut σ :=
  let o := innerThreadUpdate deps event
  match o.err with
  | some e =>
    { o with msgs := o.msgs ++ [Msg.failure ((("Failed to process update: ").toList) ++ e)] }
  | none => o

/-! Fixtures for concrete evaluations. -/

/-- A concrete open task, distinguished by an index. -/
def fixtureTask (n : Nat) : StoredTask :=
  { pageId := ("p").toList ++ natToJStr n
  , title := ("Task ").toList ++ natToJStr n
  , summary := []
  , category := ("Work").toList
  , priority := ("P3").toList
  , dueDate := none
  , status := ("Todo").toList
  , assignee := []
  , thoughtSignature := ("sig").toList
  , slackThreadTS := ("100.1").toList
  , archived := false }

/-- A store holding sixteen open tasks. -/
def fixtureStore16 : NStore := { pages := (List.range 16).map fixtureTask, nextId := 16 }

/-- A store holding two open tasks. -/
def fixtureStore2 : NStore := { pages := [fixtureTask 0, fixtureTask 1], nextId := 2 }

/-- A concrete broad-search tool call. -/
def fixtureSearchCall : ToolCall :=
  { name := ("search_tasks").toList, args := { query := some (("all").toList) } }

/-- A provider response that requests one more search call. -/
def fixtureResp (t : String) : ProviderResponse :=
  { functionCalls := some [fixtureSearchCall], text := t.toList }

/-- A provider continuation that always requests one more call. -/
def fixtureChat : ChatFn := fun _ => Except.ok (fixtureResp ("again"))

/-- A fresh (non-thread) inbound event. -/
def fixtureEvent : SlackEvent :=
  { channel := [], text := ("hi").toList, ts := ("1.1").toList, thread_ts := none }

/-!
Theorems.
-/

/-- Supporting lemma: the signature-preservation step returns the original
signature whenever the parsed value's `thought_signature` property is
missing or the empty string. -/
theorem patchUpdateResult_sig (originalSignature reply : JStr) (j : Json)
    (h : getField j (("thought_signature").toList) = none ∨
      getField j (("thought_signature").toList) = some (Json.str [])) :
    (patchUpdateResult originalSignature reply j).signature = Json.str originalSignature := by
  cases j with
  | obj fields =>
    have hps : patchUpdateResult originalSignature reply (Json.obj fields) =
        (if jsTruthy (jsOrJson
            (getField (Json.obj fields) (("thought_signature").toList)) Json.null) then
          { value := Json.obj fields
          , signature := jsOrJson
              (getField (Json.obj fields) (("thought_signature").toList)) Json.null }
        else
          { value := setField (Json.obj fields) (("thought_signature").toList)
              (Json.str originalSignature)
          , signature := Json.str originalSignature }) := rfl
    rw [hps]
    rcases h with h | h <;> rw [h] <;> rfl
  | arr elems => rfl
  | null => rfl
  | bool b => rfl
  | num lex => rfl
  | str s => rfl

/-- C4: for every call to the thread-update classifier `updateWithContext`,
if the provider's answer does not include a new thought signature (field
missing or empty), the returned signature equals the `originalSignature`
argument — including on the path where the provider call itself fails. -/
theorem c4_signature_preserved (originalSignature reply : JStr)
    (providerText : Option JStr)
    (h : ∀ t, providerText = some t →
      getField (parseUpdate reply t) (("thought_signature").toList) = none ∨
      getField (parseUpdate reply t) (("thought_signature").toList) = some (Json.str [])) :
    (updateWithContext originalSignature reply providerText).signature =
      Json.str originalSignature := by
  cases providerText with
  | none => rfl
  | some t => exact patchUpdateResult_sig originalSignature reply (parseUpdate reply t) (h t rfl)

/-- Witness for C4 at a concrete provider answer lacking a signature. -/
theorem c4_signature_preserved_witness :
    getField (parseUpdate (("done").toList) (("\x7b\"action\": \"completed\"\x7d").toList))
      (("thought_signature").toList) = none ∧
    (updateWithContext (("orig").toList) (("done").toList)
      (some (("\x7b\"action\": \"completed\"\x7d").toList))).signature =
      Json.str (("orig").toList) :=
  ⟨by rfl, c4_signature_preserved (("orig").toList) (("done").toList)
    (some (("\x7b\"action\": \"completed\"\x7d").toList))
    (fun t ht => by cases ht; exact Or.inl (by rfl))⟩

/-- C3: for every input text, if the provider's output cannot be decoded by
the applied extraction strategies (non-JSON, empty string) or the provider
call itself throws, `analyzeThought` returns normally with exactly one
extraction whose intent is `new_task` and whose title is the first 50
characters of the input, together with the locally computed fallback
signature. -/
theorem c3_fallback_total (text : JStr) (providerText : Option JStr)
    (h : providerText = none ∨
      ∃ t, providerText = some t ∧ jsonDecode (selectCandidate t) = none) :
    analyzeThought text providerText = fallbackGeminiR text ∧
    (analyzeThought text providerText).extractions = Json.arr [fallbackExtractionJson text] ∧
    getField (fallbackExtractionJson text) (("intent").toList) =
      some (Json.str (("new_task").toList)) ∧
    getField (fallbackExtractionJson text) (("title").toList) =
      some (Json.str (text.take 50)) ∧
    (analyzeThought text providerText).thought_signature =
      Json.str (generateDummyHash text) := by
  have hmain : analyzeThought text providerText = fallbackGeminiR text := by
    rcases h with h | ⟨t, ht, hp⟩
    · rw [h]; rfl
    · rw [ht]
      show buildFromDecode text (jsonDecode (selectCandidate t)) = fallbackGeminiR text
      rw [hp]; rfl
  refine ⟨hmain, ?_, by rfl, by rfl, ?_⟩
  · rw [hmain]; rfl
  · rw [hmain]; rfl

/-- Witness for C3 at a concrete undecodable provider response. -/
theorem c3_fallback_total_witness :
    jsonDecode (selectCandidate (("totally not json").toList)) = none ∧
    analyzeThought (("hello world").toList) (some (("totally not json").toList)) =
      fallbackGeminiR (("hello world").toList) :=
  ⟨by rfl, (c3_fallback_total (("hello world").toList)
    (some (("totally not json").toList)) (Or.inr ⟨_, rfl, by rfl⟩)).1⟩

/-- Counterexample to C7: on a response that is not directly decodable but
contains a brace-delimited object, the claimed cascade (direct decode
first, brace extraction fourth) decodes the object, while the source
parser, which makes a single decode attempt on its selected candidate,
falls back to the manufactured extraction. -/
theorem c7_counterexample :
    (analyzeThought (("buy milk").toList)
      (some (("Result: \x7b\"extractions\": []\x7d").toList))).extractions =
      Json.arr [fallbackExtractionJson (("buy milk").toList)] ∧
    (claimedAnalyzeThought (("buy milk").toList)
      (some (("Result: \x7b\"extractions\": []\x7d").toList))).extractions = Json.arr [] ∧
    Json.arr [fallbackExtractionJson (("buy milk").toList)] ≠ Json.arr [] :=
  ⟨by rfl, by rfl, by simp⟩

/-- C7 amended: the multi-extraction parser selects exactly one candidate —
the `\x60\x60\x60json` fenced capture if that pattern matches, else the generic
fenced capture, else the trimmed response — makes a single decode attempt
on it, and on failure manufactures the local fallback; there is no
direct-decode-first step and no brace-delimited extraction strategy. -/
theorem c7_strategy_order (text t : JStr) :
    (∀ c, fenceExtract jsonFenceTag (jsTrim t) = some c →
      analyzeThought text (some t) = buildFromDecode text (jsonDecode c)) ∧
    (fenceExtract jsonFenceTag (jsTrim t) = none →
      ∀ c, fenceExtract genericFenceTag (jsTrim t) = some c →
        analyzeThought text (some t) = buildFromDecode text (jsonDecode c)) ∧
    (fenceExtract jsonFenceTag (jsTrim t) = none →
      fenceExtract genericFenceTag (jsTrim t) = none →
        analyzeThought text (some t) = buildFromDecode text (jsonDecode (jsTrim t))) := by
  refine ⟨fun c hc => ?_, fun h1 c hc => ?_, fun h1 h2 => ?_⟩
  · show buildFromDecode text (jsonDecode (selectCandidate t)) = _
    simp only [selectCandidate]
    rw [hc]
  · show buildFromDecode text (jsonDecode (selectCandidate t)) = _
    simp only [selectCandidate]
    rw [h1, hc]
  · show buildFromDecode text (jsonDecode (selectCandidate t)) = _
    simp only [selectCandidate]
    rw [h1, h2]

/-- Witness for C7 amended at a concrete fenced response. -/
theorem c7_strategy_order_witness :
    fenceExtract jsonFenceTag (jsTrim (("\x60\x60\x60json\n\x7b\"extractions\": []\x7d\n\x60\x60\x60").toList)) =
      some (("\x7b\"extractions\": []\x7d").toList) ∧
    analyzeThought (("note").toList) (some (("\x60\x60\x60json\n\x7b\"extractions\": []\x7d\n\x60\x60\x60").toList)) =
      buildFromDecode (("note").toList) (jsonDecode (("\x7b\"extractions\": []\x7d").toList)) :=
  ⟨by rfl, (c7_strategy_order (("note").toList)
    (("\x60\x60\x60json\n\x7b\"extractions\": []\x7d\n\x60\x60\x60").toList)).1
    (("\x7b\"extractions\": []\x7d").toList) (by rfl)⟩

/-- Counterexample to C8: the fallback hash is not injective — the distinct
texts `Aa` and `BB` produce the same signature (both hash to 2112 under the
31-based 32-bit rolling hash). -/
theorem c8_counterexample :
    generateDummyHash (("Aa").toList) = generateDummyHash (("BB").toList) ∧
    (("Aa").toList : JStr) ≠ ("BB").toList :=
  ⟨by rfl, by decide⟩

/-- C8 amended: the locally derived fallback signature is deterministic —
the same text always yields the same signature — but distinct texts may
collide. -/
theorem c8_deterministic (t₁ t₂ : JStr) (h : t₁ = t₂) :
    generateDummyHash t₁ = generateDummyHash t₂ := by rw [h]

/-- Witness for C8 amended at a concrete text. -/
theorem c8_deterministic_witness :
    (("Aa").toList : JStr) = ("Aa").toList ∧
    generateDummyHash (("Aa").toList) = generateDummyHash (("Aa").toList) :=
  ⟨rfl, c8_deterministic (("Aa").toList) (("Aa").toList) rfl⟩

/-- C10: every record created by the core — the legacy `new_task` path via
`createPageFromThought` and the agentic `create_task` tool — is created
with status `Todo`, with the caller-supplied context signature and thread
key persisted on the record; the property payload never carries any other
status. -/
theorem c10_create_status_todo (e : ThoughtExtraction) (sig ts : JStr) (s : NStore)
    (args : ToolArgs) (eventTs : JStr) :
    (buildPageProperties e sig ts).statusName = ("Todo").toList ∧
    (buildPageProperties e sig ts).thoughtSignatureContent = sig ∧
    (buildPageProperties e sig ts).slackThreadTSContent = ts ∧
    (∃ p : StoredTask, (createPageImpl e sig ts s).2.pages = s.pages ++ [p] ∧
      p.pageId = (createPageImpl e sig ts s).1.1 ∧
      p.status = ("Todo").toList ∧ p.thoughtSignature = sig ∧ p.slackThreadTS = ts) ∧
    (∃ p : StoredTask,
      (dispatchResult notionOps eventTs { name := ("create_task").toList, args := args } s).2.pages =
        s.pages ++ [p] ∧
      p.status = ("Todo").toList ∧ p.thoughtSignature = ("agentic_create").toList ∧
      p.slackThreadTS = eventTs) :=
  ⟨rfl, rfl, rfl, ⟨_, rfl, rfl, rfl, rfl, rfl⟩, ⟨_, rfl, rfl, rfl, rfl⟩⟩

/-- Supporting lemma: one functionResponse entry per call, in order,
carrying the call names; and the batch length equals the call count. -/
theorem execBatch_shape {σ : Type} (ops : StoreOps σ) (eventTs : JStr) :
    ∀ (calls : List ToolCall) (s : σ),
      ((execBatch ops eventTs calls s).2.1).length = calls.length ∧
      (execBatch ops eventTs calls s).2.1.map (fun fr => fr.name) =
        calls.map (fun c => c.name) := by
  intro calls
  induction calls with
  | nil => intro s; exact ⟨rfl, rfl⟩
  | cons c cs ih =>
    intro s
    have hd : dispatchCall ops eventTs c s =
        ({ name := c.name, response := (dispatchResult ops eventTs c s).1 },
          (dispatchResult ops eventTs c s).2) := rfl
    show (((execBatch ops eventTs (c :: cs) s).2.1).length = (c :: cs).length) ∧ _
    have he : execBatch ops eventTs (c :: cs) s =
        (Msg.progress ((("Executing: ").toList) ++ c.name) ::
            (execBatch ops eventTs cs (dispatchResult ops eventTs c s).2).1
        , { name := c.name, response := (dispatchResult ops eventTs c s).1 } ::
            (execBatch ops eventTs cs (dispatchResult ops eventTs c s).2).2.1
        , (execBatch ops eventTs cs (dispatchResult ops eventTs c s).2).2.2) := rfl
    rw [he]
    obtain ⟨ih1, ih2⟩ := ih (dispatchResult ops eventTs c s).2
    exact ⟨by simpa using ih1, by simpa using ih2⟩

/-- Supporting lemma: with a provider whose continuation never throws, the
loop never aborts — every tool error is fed back and the loop continues. -/
theorem agenticLoopAux_err_none {σ : Type} (ops : StoreOps σ) (eventTs : JStr)
    (chat : ChatFn) (hchat : ∀ h', ∃ r, chat h' = Except.ok r) :
    ∀ (budget : Nat) (resp : ProviderResponse) (s : σ)
      (hist : List (List FuncResponse)) (msgs : List Msg),
      (agenticLoopAux ops eventTs chat budget resp s hist msgs).err = none := by
  intro budget
  induction budget with
  | zero => intro resp s hist msgs; rfl
  | succ b ih =>
    intro resp s hist msgs
    simp only [agenticLoopAux]
    by_cases hc : jsHasCalls resp
    · rw [if_pos hc]
      rcases hE : execBatch ops eventTs (resp.functionCalls.getD []) s with ⟨bmsgs, results, s'⟩
      dsimp only
      obtain ⟨r, hr⟩ := hchat (hist ++ [results])
      rw [hr]
      exact ih r s' (hist ++ [results]) (msgs ++ bmsgs)
    · rw [if_neg hc]

/-- C2: for every tool call executed within one batch: an unknown name is
recorded as the `Unknown tool` error result; a throwing store operation is
caught and recorded as an error result carrying its message; exactly one
tool-result is appended per call (same length, same names, in order); and
the loop proceeds to the next provider turn rather than aborting. -/
theorem c2_tool_error_capture {σ : Type} (ops : StoreOps σ) (eventTs : JStr)
    (call : ToolCall) (s : σ) :
    (call.name ∉ knownToolNames →
      dispatchResult ops eventTs call s =
        (ToolResult.errorRes (("Unknown tool").toList), s)) ∧
    (∀ m s', call.name = ("search_tasks").toList →
      ops.searchTasks call.args.query s = (Except.error m, s') →
      dispatchResult ops eventTs call s = (ToolResult.errorRes m, s')) ∧
    (∀ m s', call.name = ("create_task").toList →
      ops.createPageFromThought (createTaskExtraction call.args)
          (("agentic_create").toList) eventTs s = (Except.error m, s') →
      dispatchResult ops eventTs call s = (ToolResult.errorRes m, s')) ∧
    (∀ m s', call.name = ("update_task_status").toList →
      ops.updatePageStatus (call.args.pageId.getD []) (call.args.status.getD []) s =
        (Except.error m, s') →
      dispatchResult ops eventTs call s = (ToolResult.errorRes m, s')) ∧
    (∀ m s', call.name = ("archive_tasks").toList →
      ops.searchTasks call.args.searchTerm s = (Except.error m, s') →
      dispatchResult ops eventTs call s = (ToolResult.errorRes m, s')) ∧
    (∀ tasks m s' s'', call.name = ("archive_tasks").toList →
      ops.searchTasks call.args.searchTerm s = (Except.ok tasks, s') →
      archiveSeq ops tasks s' = (Except.error m, s'') →
      dispatchResult ops eventTs call s = (ToolResult.errorRes m, s'')) ∧
    (∀ m s', call.name = ("add_task_note").toList →
      ops.appendNote (call.args.pageId.getD []) (call.args.note.getD []) s =
        (Except.error m, s') →
      dispatchResult ops eventTs call s = (ToolResult.errorRes m, s')) ∧
    (∀ calls : List ToolCall,
      ((execBatch ops eventTs calls s).2.1).length = calls.length ∧
      (execBatch ops eventTs calls s).2.1.map (fun fr => fr.name) =
        calls.map (fun c => c.name)) ∧
    (∀ (chat : ChatFn) (budget : Nat) (resp : ProviderResponse)
        (hist : List (List FuncResponse)) (msgs : List Msg),
      (∀ h', ∃ r, chat h' = Except.ok r) →
      (agenticLoopAux ops eventTs chat budget resp s hist msgs).err = none) := by
  obtain ⟨nm, args⟩ := call
  refine ⟨?_, ?_, ?_, ?_, ?_, ?_, ?_, fun calls => execBatch_shape ops eventTs calls s,
    fun chat budget resp hist msgs hchat =>
      agenticLoopAux_err_none ops eventTs chat hchat budget resp s hist msgs⟩
  · intro h
    simp only [knownToolNames, List.mem_cons, List.not_mem_nil, or_false, not_or] at h
    obtain ⟨h1, h2, h3, h4, h5⟩ := h
    show dispatchResult ops eventTs ⟨nm, args⟩ s = _
    unfold dispatchResult
    rw [if_neg h1, if_neg h2, if_neg h3, if_neg h4, if_neg h5]
  · intro m s' hname hop
    subst hname
    have hstep : dispatchResult ops eventTs ⟨("search_tasks").toList, args⟩ s =
        (match ops.searchTasks args.query s with
         | (Except.ok tasks, s') => (ToolResult.tasksRes tasks, s')
         | (Except.error m, s') => (ToolResult.errorRes m, s')) := rfl
    rw [hstep, hop]
  · intro m s' hname hop
    subst hname
    have hstep : dispatchResult ops eventTs ⟨("create_task").toList, args⟩ s =
        (match ops.createPageFromThought (createTaskExtraction args)
            (("agentic_create").toList) eventTs s with
         | (Except.ok (pid, url), s') => (ToolResult.createRes pid url, s')
         | (Except.error m, s') => (ToolResult.errorRes m, s')) := rfl
    rw [hstep, hop]
  · intro m s' hname hop
    subst hname
    have hstep : dispatchResult ops eventTs ⟨("update_task_status").toList, args⟩ s =
        (match ops.updatePageStatus (args.pageId.getD []) (args.status.getD []) s with
         | (Except.ok _, s') => (ToolResult.successRes, s')
         | (Except.error m, s') => (ToolResult.errorRes m, s')) := rfl
    rw [hstep, hop]
  · intro m s' hname hop
    subst hname
    have hstep : dispatchResult ops eventTs ⟨("archive_tasks").toList, args⟩ s =
        (match ops.searchTasks args.searchTerm s with
         | (Except.error m, s') => (ToolResult.errorRes m, s')
         | (Except.ok tasksToArchive, s') =>
           match archiveSeq ops tasksToArchive s' with
           | (Except.ok _, s'') => (ToolResult.archiveRes tasksToArchive.length, s'')
           | (Except.error m, s'') => (ToolResult.errorRes m, s'')) := rfl
    rw [hstep, hop]
  · intro tasks m s' s'' hname hsearch harch
    subst hname
    have hstep : dispatchResult ops eventTs ⟨("archive_tasks").toList, args⟩ s =
        (match ops.searchTasks args.searchTerm s with
         | (Except.error m, s') => (ToolResult.errorRes m, s')
         | (Except.ok tasksToArchive, s') =>
           match archiveSeq ops tasksToArchive s' with
           | (Except.ok _, s'') => (ToolResult.archiveRes tasksToArchive.length, s'')
           | (Except.error m, s'') => (ToolResult.errorRes m, s'')) := rfl
    rw [hstep, hsearch]
    dsimp only
    rw [harch]
  · intro m s' hname hop
    subst hname
    have hstep : dispatchResult ops eventTs ⟨("add_task_note").toList, args⟩ s =
        (match ops.appendNote (args.pageId.getD []) (args.note.getD []) s with
         | (Except.ok _, s') => (ToolResult.successRes, s')
         | (Except.error m, s') => (ToolResult.errorRes m, s')) := rfl
    rw [hstep, hop]

/-- Witness for C2 at a concrete unknown tool name and a concrete failing
store operation. -/
theorem c2_tool_error_capture_witness :
    (({ name := ("frobnicate").toList, args := {} } : ToolCall).name ∉ knownToolNames ∧
      dispatchResult notionOps (("1.1").toList)
        { name := ("frobnicate").toList, args := {} } fixtureStore2 =
        (ToolResult.errorRes (("Unknown tool").toList), fixtureStore2)) ∧
    dispatchResult
      { notionOps with updatePageStatus := fun _ _ s => (Except.error (("boom").toList), s) }
      (("1.1").toList)
      { name := ("update_task_status").toList, args := { pageId := some (("p0").toList) } }
      fixtureStore2 =
      (ToolResult.errorRes (("boom").toList), fixtureStore2) :=
  ⟨⟨by decide,
    (c2_tool_error_capture notionOps (("1.1").toList)
      { name := ("frobnicate").toList, args := {} } fixtureStore2).1 (by decide)⟩,
   (c2_tool_error_capture
      { notionOps with updatePageStatus := fun _ _ s => (Except.error (("boom").toList), s) }
      (("1.1").toList)
      { name := ("update_task_status").toList, args := { pageId := some (("p0").toList) } }
      fixtureStore2).2.2.2.1 (("boom").toList) fixtureStore2 rfl rfl⟩

/-- Supporting lemma: failure counting distributes over append. -/
theorem countFail_append (a b : List Msg) :
    countFail (a ++ b) = countFail a + countFail b :=
  List.countP_append _ a b

/-- Supporting lemma: batch execution emits progress notifications only. -/
theorem countFail_execBatch {σ : Type} (ops : StoreOps σ) (eventTs : JStr) :
    ∀ (calls : List ToolCall) (s : σ), countFail (execBatch ops eventTs calls s).1 = 0 := by
  intro calls
  induction calls with
  | nil => intro s; rfl
  | cons c cs ih =>
    intro s
    have he : (execBatch ops eventTs (c :: cs) s).1 =
        Msg.progress ((("Executing: ").toList) ++ c.name) ::
          (execBatch ops eventTs cs (dispatchResult ops eventTs c s).2).1 := rfl
    rw [he, countFail, List.countP_cons, if_neg (by simp [isFailMsg]), Nat.add_zero]
    exact ih (dispatchResult ops eventTs c s).2

/-- Supporting lemma: the agentic loop emits progress notifications only. -/
theorem countFail_agenticLoopAux {σ : Type} (ops : StoreOps σ) (eventTs : JStr)
    (chat : ChatFn) :
    ∀ (budget : Nat) (resp : ProviderResponse) (s : σ)
      (hist : List (List FuncResponse)) (msgs : List Msg),
      countFail (agenticLoopAux ops eventTs chat budget resp s hist msgs).msgs =
        countFail msgs := by
  intro budget
  induction budget with
  | zero => intro resp s hist msgs; rfl
  | succ b ih =>
    intro resp s hist msgs
    simp only [agenticLoopAux]
    by_cases hc : jsHasCalls resp
    · rw [if_pos hc]
      rcases hE : execBatch ops eventTs (resp.functionCalls.getD []) s with ⟨bmsgs, results, s'⟩
      dsimp only
      have hb : countFail bmsgs = 0 := by
        have h0 := countFail_execBatch ops eventTs (resp.functionCalls.getD []) s
        rw [hE] at h0
        exact h0
      cases hchat : chat (hist ++ [results]) with
      | error e =>
        show countFail (msgs ++ bmsgs) = countFail msgs
        rw [countFail_append, hb, Nat.add_zero]
      | ok r' =>
        rw [ih r' s' (hist ++ [results]) (msgs ++ bmsgs), countFail_append, hb, Nat.add_zero]
    · rw [if_neg hc]

/-- Supporting lemma: assembling the capture outcome adds no failure
message. -/
theorem countFail_captureAssemble {σ : Type} (lo : LoopOut σ)
    (h : countFail lo.msgs = 0) : countFail (captureAssemble lo).msgs = 0 := by
  unfold captureAssemble
  split
  · show countFail (captureStatusMsgs ++ lo.msgs ++ [Msg.finalAnswer _]) = 0
    rw [countFail_append, countFail_append, h]
    rfl
  · show countFail (captureStatusMsgs ++ lo.msgs) = 0
    rw [countFail_append, h]
    rfl

/-- Supporting lemma: the capture `try` body emits no failure message. -/
theorem countFail_innerCapture {σ : Type} (deps : CaptureDeps σ) (event : SlackEvent) :
    countFail (innerCapture deps event).msgs = 0 := by
  unfold innerCapture
  by_cases ht : (event.thread_ts).isSome
  · rw [if_pos ht]
    rfl
  · rw [if_neg ht]
    cases hS : deps.startChat with
    | error e => rfl
    | ok pair =>
      obtain ⟨resp0, chat⟩ := pair
      exact countFail_captureAssemble _
        ((countFail_agenticLoopAux deps.ops event.ts chat 5 resp0 deps.state0 [] []).trans rfl)

/-- Supporting lemma: the thread-update `try` body emits no failure
message. -/
theorem countFail_innerThreadUpdate {σ : Type} (deps : ThreadDeps σ) (event : SlackEvent) :
    countFail (innerThreadUpdate deps event).msgs = 0 := by
  simp only [innerThreadUpdate]
  repeat' split
  all_goals rfl

/-- C9: for every inbound message, an exception escaping the orchestration
flow — for example the provider unreachable on the loop's first turn, or a
store mutation failing in the thread-update flow — is caught at the top of
the handler, converted into exactly one user-visible failure message, and
the handler returns normally (the model functions are total); without an
escaped exception no failure message is emitted. -/
theorem c9_orchestrator_catches {σ σ' : Type} (deps : CaptureDeps σ) (event : SlackEvent)
    (tdeps : ThreadDeps σ') (event' : SlackEvent) :
    countFail (handleCapture deps event).msgs =
      (if (innerCapture deps event).err.isSome then 1 else 0) ∧
    countFail (handleThreadUpdate tdeps event').msgs =
      (if (innerThreadUpdate tdeps event').err.isSome then 1 else 0) := by
  constructor
  · show countFail (match (innerCapture deps event).err with
      | some e => { innerCapture deps event with msgs := (innerCapture deps event).msgs ++
          [Msg.failure ((("Failed to capture thought: ").toList) ++ e)] }
      | none => innerCapture deps event).msgs = _
    cases he : (innerCapture deps event).err with
    | none => simpa using countFail_innerCapture deps event
    | some e =>
      show countFail ((innerCapture deps event).msgs ++ [Msg.failure _]) = _
      rw [countFail_append, countFail_innerCapture deps event]
      rfl
  · show countFail (match (innerThreadUpdate tdeps event').err with
      | some e => { innerThreadUpdate tdeps event' with msgs := (innerThreadUpdate tdeps event').msgs ++
          [Msg.failure ((("Failed to process update: ").toList) ++ e)] }
      | none => innerThreadUpdate tdeps event').msgs = _
    cases he : (innerThreadUpdate tdeps event').err with
    | none => simpa using countFail_innerThreadUpdate tdeps event'
    | some e =>
      show countFail ((innerThreadUpdate tdeps event').msgs ++ [Msg.failure _]) = _
      rw [countFail_append, countFail_innerThreadUpdate tdeps event']
      rfl

/-- Supporting lemma: ordered insertion permutes a cons. -/
theorem insertLe_perm (le : StoredTask → StoredTask → Bool) (a : StoredTask) :
    ∀ l : List StoredTask, List.Perm (insertLe le a l) (a :: l) := by
  intro l
  induction l with
  | nil => exact List.Perm.refl _
  | cons b bs ih =>
    show List.Perm (if le a b then a :: b :: bs else b :: insertLe le a bs) _
    by_cases h : le a b
    · rw [if_pos h]
    · rw [if_neg h]
      exact (List.Perm.cons b ih).trans (List.Perm.swap a b bs)

/-- Supporting lemma: the sort model permutes its input; only the multiset
of search results is claim-relevant. -/
theorem sortLe_perm (le : StoredTask → StoredTask → Bool) :
    ∀ l : List StoredTask, List.Perm (sortLe le l) l := by
  intro l
  induction l with
  | nil => exact List.Perm.refl _
  | cons a as ih =>
    exact (insertLe_perm le a (sortLe le as)).trans (List.Perm.cons a ih)

/-- Supporting lemma: the shape of the broad search (`"all"`): filter on
status only, sort, first page of 15. -/
theorem searchAll_eq (s : NStore) :
    searchTasksImpl (some (("all").toList)) s =
      (sortLe taskLe (s.pages.filter
        (fun p => !p.archived && !(p.status == ("Done").toList)))).take 15 := rfl

/-- C5 amended: a search with the term `all` filters only on status — every
returned record is a non-Done, non-archived stored record regardless of
title, assignee or category — and, whenever at most 15 such records exist
(the `page_size: 15` cap of the query), every one of them is returned. -/
theorem c5_all_returns_nondone (s : NStore)
    (h : (s.pages.filter
      (fun p => !p.archived && !(p.status == ("Done").toList))).length ≤ 15)
    (p : StoredTask) :
    p ∈ searchTasksImpl (some (("all").toList)) s ↔
      p ∈ s.pages ∧ p.archived = false ∧ p.status ≠ ("Done").toList := by
  rw [searchAll_eq]
  have hperm := sortLe_perm taskLe
    (s.pages.filter (fun p => !p.archived && !(p.status == ("Done").toList)))
  rw [List.take_of_length_le (by rw [hperm.length_eq]; exact h)]
  rw [hperm.mem_iff, List.mem_filter]
  simp [and_assoc]

/-- Witness for C5 amended on a small store. -/
theorem c5_all_returns_nondone_witness :
    ((fixtureStore2.pages.filter
      (fun p => !p.archived && !(p.status == ("Done").toList))).length ≤ 15) ∧
    (fixtureTask 0 ∈ searchTasksImpl (some (("all").toList)) fixtureStore2 ↔
      fixtureTask 0 ∈ fixtureStore2.pages ∧ (fixtureTask 0).archived = false ∧
        (fixtureTask 0).status ≠ ("Done").toList) :=
  ⟨by decide, c5_all_returns_nondone fixtureStore2 (by decide) (fixtureTask 0)⟩

/-- Counterexample to C5: with sixteen open records, the broad search
returns only the first 15 (the `page_size: 15` cap), so one stored non-Done
record is missing from the result. -/
theorem c5_counterexample :
    (searchTasksImpl (some (("all").toList)) fixtureStore16).length = 15 ∧
    (fixtureStore16.pages.filter
      (fun p => !p.archived && !(p.status == ("Done").toList))).length = 16 ∧
    ∃ p ∈ fixtureStore16.pages, p.status ≠ ("Done").toList ∧ p.archived = false ∧
      p ∉ searchTasksImpl (some (("all").toList)) fixtureStore16 := by
  refine ⟨by decide, by decide, ?_⟩
  decide

/-- Supporting lemma: on the concrete adapter, the `archive_tasks` loop is
exactly the batch archiving of every listed task, and never fails. -/
theorem archiveSeq_notionOps :
    ∀ (ts : List StoredTask) (s : NStore),
      archiveSeq notionOps ts s = (Except.ok (), archiveAllImpl ts s) := by
  intro ts
  induction ts with
  | nil => intro s; rfl
  | cons t ts ih =>
    intro s
    show archiveSeq notionOps ts (archivePageImpl t.pageId s) = _
    exact ih (archivePageImpl t.pageId s)

/-- Supporting lemma: archiving changes no page id. -/
theorem archivePage_ids (pid : JStr) (s : NStore) :
    (archivePageImpl pid s).pages.map (fun p => p.pageId) =
      s.pages.map (fun p => p.pageId) := by
  show (s.pages.map _).map _ = _
  rw [List.map_map]
  exact List.map_congr_left (fun p _ => by
    by_cases h : p.pageId = pid <;> simp [Function.comp, h])

/-- Supporting lemma: archiving one page keeps every archived page
archived. -/
theorem isArchived_archivePage_mono (pid idq : JStr) (s : NStore)
    (h : isArchived s idq = true) : isArchived (archivePageImpl pid s) idq = true := by
  rw [isArchived] at h ⊢
  show (s.pages.map _).any _ = true
  rw [List.any_map, List.any_eq_true]
  rw [List.any_eq_true] at h
  obtain ⟨p, hp, hpred⟩ := h
  refine ⟨p, hp, ?_⟩
  rw [Bool.and_eq_true, decide_eq_true_eq] at hpred
  show (decide ((if p.pageId = pid then { p with archived := true } else p).pageId = idq) &&
    (if p.pageId = pid then { p with archived := true } else p).archived) = true
  by_cases hc : p.pageId = pid
  · rw [if_pos hc]
    show (decide (p.pageId = idq) && true) = true
    simp [hpred.1]
  · rw [if_neg hc]
    simp [hpred.1, hpred.2]

/-- Supporting lemma: archiving a present page marks it archived. -/
theorem isArchived_archivePage_self (t : StoredTask) (s : NStore)
    (ht : t ∈ s.pages) : isArchived (archivePageImpl t.pageId s) t.pageId = true := by
  rw [isArchived]
  show (s.pages.map _).any _ = true
  rw [List.any_map, List.any_eq_true]
  exact ⟨t, ht, by simp [Function.comp]⟩

/-- Supporting lemma: batch archiving keeps every archived page archived. -/
theorem isArchived_archiveAll_mono :
    ∀ (ts : List StoredTask) (s : NStore) (idq : JStr),
      isArchived s idq = true → isArchived (archiveAllImpl ts s) idq = true := by
  intro ts
  induction ts with
  | nil => intro s idq h; exact h
  | cons t ts ih =>
    intro s idq h
    exact ih (archivePageImpl t.pageId s) idq (isArchived_archivePage_mono t.pageId idq s h)

/-- Supporting lemma: flipping the archived flag of the one unarchived page
holding a given id raises the archived count by exactly one. -/
theorem countP_archive_flag :
    ∀ (l : List StoredTask) (t : StoredTask),
      List.Nodup (l.map (fun p => p.pageId)) → t ∈ l → t.archived = false →
      List.countP (fun p => if p.pageId = t.pageId then true else p.archived) l =
        List.countP (fun p => p.archived) l + 1 := by
  intro l
  induction l with
  | nil => intro t _ ht _; exact absurd ht (List.not_mem_nil t)
  | cons a as ih =>
    intro t hnd hmem harch
    rw [List.map_cons, List.nodup_cons] at hnd
    obtain ⟨hna, hnd'⟩ := hnd
    rw [List.countP_cons, List.countP_cons]
    rcases List.mem_cons.mp hmem with rfl | hmem'
    · have htail : List.countP (fun p => if p.pageId = t.pageId then true else p.archived) as =
          List.countP (fun p => p.archived) as := by
        refine List.countP_congr (fun p hp => ?_)
        have hne : p.pageId ≠ t.pageId := fun he => hna (he ▸ List.mem_map_of_mem _ hp)
        simp [hne]
      rw [htail]
      simp [harch]
    · have hane : a.pageId ≠ t.pageId := fun he => hna (he ▸ List.mem_map_of_mem _ hmem')
      rw [ih t hnd' hmem' harch]
      simp [hane]
      omega

/-- Supporting lemma: archiving a present, unarchived page raises the
archived count by one. -/
theorem numArchived_archivePage (s : NStore) (t : StoredTask)
    (hnd : List.Nodup (s.pages.map (fun p => p.pageId)))
    (hmem : t ∈ s.pages) (ha : t.archived = false) :
    numArchived (archivePageImpl t.pageId s) = numArchived s + 1 := by
  show List.countP _ (s.pages.map _) = _
  rw [List.countP_map]
  rw [List.countP_congr (q := fun p => if p.pageId = t.pageId then true else p.archived)
    (fun p _ => by by_cases h : p.pageId = t.pageId <;> simp [Function.comp, h])]
  exact countP_archive_flag s.pages t hnd hmem ha

/-- Supporting lemma: batch archiving of distinct, present, unarchived
tasks archives each of them and raises the archived count by the batch
size. -/
theorem archiveAll_props :
    ∀ (ts : List StoredTask) (s : NStore),
      List.Nodup (s.pages.map (fun p => p.pageId)) →
      (∀ t ∈ ts, t ∈ s.pages ∧ t.archived = false) →
      List.Nodup (ts.map (fun t => t.pageId)) →
      numArchived (archiveAllImpl ts s) = numArchived s + ts.length ∧
      (∀ t ∈ ts, isArchived (archiveAllImpl ts s) t.pageId = true) := by
  intro ts
  induction ts with
  | nil =>
    intro s _ _ _
    exact ⟨(Nat.add_zero _).symm, fun t ht => absurd ht (List.not_mem_nil t)⟩
  | cons t ts ih =>
    intro s hndS hmem hndT
    obtain ⟨hmem_t, harch_t⟩ := hmem t (List.mem_cons_self t ts)
    rw [List.map_cons, List.nodup_cons] at hndT
    obtain ⟨hthead, hndT'⟩ := hndT
    have hndS' : List.Nodup ((archivePageImpl t.pageId s).pages.map (fun p => p.pageId)) := by
      rw [archivePage_ids]; exact hndS
    have hmem' : ∀ u ∈ ts, u ∈ (archivePageImpl t.pageId s).pages ∧ u.archived = false := by
      intro u hu
      obtain ⟨humem, huarch⟩ := hmem u (List.mem_cons_of_mem t hu)
      have hne : u.pageId ≠ t.pageId := fun he => hthead (he ▸ List.mem_map_of_mem _ hu)
      refine ⟨?_, huarch⟩
      have hfix : (if u.pageId = t.pageId then { u with archived := true } else u) = u :=
        if_neg hne
      exact hfix ▸ List.mem_map_of_mem _ humem
    obtain ⟨ihn, iha⟩ := ih (archivePageImpl t.pageId s) hndS' hmem' hndT'
    refine ⟨?_, ?_⟩
    · show numArchived (archiveAllImpl ts (archivePageImpl t.pageId s)) = _
      rw [ihn, numArchived_archivePage s t hndS hmem_t harch_t]
      simp [List.length_cons]
      omega
    · intro u hu
      rcases List.mem_cons.mp hu with rfl | hu'
      · exact isArchived_archiveAll_mono ts _ _ (isArchived_archivePage_self u s hmem_t)
      · exact iha u hu'

/-- Supporting lemma: every search hit is a present, unarchived record. -/
theorem mem_searchTasksImpl (q : Option JStr) (s : NStore) (t : StoredTask)
    (h : t ∈ searchTasksImpl q s) : t ∈ s.pages ∧ t.archived = false := by
  have h1 : t ∈ sortLe taskLe (s.pages.filter fun p => !p.archived && searchMatches q p) :=
    List.take_subset 15 _ h
  have h2 := (sortLe_perm taskLe _).mem_iff.mp h1
  rw [List.mem_filter] at h2
  obtain ⟨hmem, hpred⟩ := h2
  rw [Bool.and_eq_true] at hpred
  exact ⟨hmem, by simpa using hpred.1⟩

/-- Supporting lemma: with distinct store ids, the search hits carry
distinct ids. -/
theorem searchTasks_ids_nodup (q : Option JStr) (s : NStore)
    (hnd : List.Nodup (s.pages.map (fun p => p.pageId))) :
    List.Nodup ((searchTasksImpl q s).map (fun t => t.pageId)) := by
  have h1 : List.Nodup ((s.pages.filter
      (fun p => !p.archived && searchMatches q p)).map (fun p => p.pageId)) :=
    ((List.filter_sublist s.pages).map _).nodup hnd
  have h2 : List.Nodup ((sortLe taskLe (s.pages.filter
      (fun p => !p.archived && searchMatches q p))).map (fun p => p.pageId)) :=
    (((sortLe_perm taskLe _).map (fun p => p.pageId)).nodup_iff).mpr h1
  show List.Nodup ((List.take 15 _).map _)
  rw [List.map_take]
  exact (List.take_sublist _ _).nodup h2

/-- C6: for every archive request with a search term — the `archive_tasks`
tool of the agentic loop and the legacy `delete_task` path — every task
returned by the search for that term is archived, and the reported count
(the tool result's `archivedCount`, and the count in the legacy success
message) equals the number of tasks newly archived. -/
theorem c6_archive_all (s : NStore) (term eventTs : JStr)
    (hnd : List.Nodup (s.pages.map (fun p => p.pageId))) :
    (dispatchResult notionOps eventTs
        { name := ("archive_tasks").toList, args := { searchTerm := some term } } s).1 =
      ToolResult.archiveRes (searchTasksImpl (some term) s).length ∧
    (∀ t ∈ searchTasksImpl (some term) s,
      isArchived (dispatchResult notionOps eventTs
        { name := ("archive_tasks").toList, args := { searchTerm := some term } } s).2
        t.pageId = true) ∧
    numArchived (dispatchResult notionOps eventTs
        { name := ("archive_tasks").toList, args := { searchTerm := some term } } s).2 =
      numArchived s + (searchTasksImpl (some term) s).length ∧
    (searchTasksImpl (some term) s ≠ [] →
      (legacyDeleteFlow term s).1.getLast? = some (Msg.progress
        ((("Successfully removed ").toList) ++
          natToJStr (searchTasksImpl (some term) s).length ++
          (" task(s) related to ").toList ++ term))) ∧
    (∀ t ∈ searchTasksImpl (some term) s,
      isArchived (legacyDeleteFlow term s).2 t.pageId = true) ∧
    numArchived (legacyDeleteFlow term s).2 =
      numArchived s + (searchTasksImpl (some term) s).length := by
  have hfound : ∀ t ∈ searchTasksImpl (some term) s, t ∈ s.pages ∧ t.archived = false :=
    fun t ht => mem_searchTasksImpl (some term) s t ht
  have hndF := searchTasks_ids_nodup (some term) s hnd
  obtain ⟨hcount, harch⟩ := archiveAll_props (searchTasksImpl (some term) s) s hnd hfound hndF
  have hdisp : dispatchResult notionOps eventTs
      { name := ("archive_tasks").toList, args := { searchTerm := some term } } s =
      (ToolResult.archiveRes (searchTasksImpl (some term) s).length,
        archiveAllImpl (searchTasksImpl (some term) s) s) := by
    unfold dispatchResult
    dsimp only
    rw [if_neg (by decide), if_neg (by decide), if_neg (by decide), if_pos (by decide)]
    rw [show notionOps.searchTasks (some term) s =
      (Except.ok (searchTasksImpl (some term) s), s) from rfl]
    dsimp only
    rw [archiveSeq_notionOps]
  refine ⟨by rw [hdisp], fun t ht => by rw [hdisp]; exact harch t ht,
    by rw [hdisp]; exact hcount, ?_, ?_, ?_⟩
  · intro hne
    have hie : (searchTasksImpl (some term) s).isEmpty = false := by
      rcases hq : searchTasksImpl (some term) s with _ | ⟨a, as⟩
      · exact absurd hq hne
      · rfl
    have hlegacy1 : (legacyDeleteFlow term s).1 =
        [ Msg.progress ((("Searching for tasks related to ").toList) ++ term)
        , Msg.progress ((("Found ").toList) ++
            natToJStr (searchTasksImpl (some term) s).length ++
            (" task(s). Archiving now...").toList)
        , Msg.progress ((("Successfully removed ").toList) ++
            natToJStr (searchTasksImpl (some term) s).length ++
            (" task(s) related to ").toList ++ term) ] := by
      simp only [legacyDeleteFlow]
      rw [hie]
      rfl
    rw [hlegacy1]
    rfl
  · intro t ht
    by_cases hF : searchTasksImpl (some term) s = []
    · rw [hF] at ht
      exact absurd ht (List.not_mem_nil t)
    · have hie : (searchTasksImpl (some term) s).isEmpty = false := by
        rcases hq : searchTasksImpl (some term) s with _ | ⟨a, as⟩
        · exact absurd hq hF
        · rfl
      have hlegacy2 : (legacyDeleteFlow term s).2 =
          archiveAllImpl (searchTasksImpl (some term) s) s := by
        simp only [legacyDeleteFlow]
        rw [hie]
        rfl
      rw [hlegacy2]
      exact harch t ht
  · by_cases hF : searchTasksImpl (some term) s = []
    · have h2 : (legacyDeleteFlow term s).2 = s := by
        simp only [legacyDeleteFlow]
        rw [hF]
        rfl
      rw [h2, hF]
      rfl
    · have hie : (searchTasksImpl (some term) s).isEmpty = false := by
        rcases hq : searchTasksImpl (some term) s with _ | ⟨a, as⟩
        · exact absurd hq hF
        · rfl
      have hlegacy2 : (legacyDeleteFlow term s).2 =
          archiveAllImpl (searchTasksImpl (some term) s) s := by
        simp only [legacyDeleteFlow]
        rw [hie]
        rfl
      rw [hlegacy2]
      exact hcount

/-- Supporting lemma: the loop executes at most `budget` further batches. -/
theorem agenticLoopAux_batches_le {σ : Type} (ops : StoreOps σ) (eventTs : JStr)
    (chat : ChatFn) :
    ∀ (budget : Nat) (resp : ProviderResponse) (s : σ)
      (hist : List (List FuncResponse)) (msgs : List Msg),
      (agenticLoopAux ops eventTs chat budget resp s hist msgs).batches.length ≤
        hist.length + budget := by
  intro budget
  induction budget with
  | zero =>
    intro resp s hist msgs
    show hist.length ≤ hist.length + 0
    omega
  | succ b ih =>
    intro resp s hist msgs
    simp only [agenticLoopAux]
    by_cases hc : jsHasCalls resp
    · rw [if_pos hc]
      rcases hE : execBatch ops eventTs (resp.functionCalls.getD []) s with ⟨bmsgs, results, s'⟩
      dsimp only
      cases hr : chat (hist ++ [results]) with
      | error e =>
        show (hist ++ [results]).length ≤ hist.length + (b + 1)
        rw [List.length_append, List.length_singleton]
        omega
      | ok r' =>
        have h := ih r' s' (hist ++ [results]) (msgs ++ bmsgs)
        rw [List.length_append, List.length_singleton] at h
        exact le_trans h (by omega)
    · rw [if_neg hc]
      show hist.length ≤ hist.length + (b + 1)
      omega

/-- Supporting lemma: with a provider that requests another tool call on
every turn, the loop spends its whole budget, never aborts, and ends on the
provider's most recent response. -/
theorem agenticLoopAux_always {σ : Type} (ops : StoreOps σ) (eventTs : JStr)
    (chat : ChatFn)
    (hchat : ∀ h', ∃ r, chat h' = Except.ok r ∧ jsHasCalls r = true) :
    ∀ (budget : Nat) (resp : ProviderResponse) (s : σ)
      (hist : List (List FuncResponse)) (msgs : List Msg),
      jsHasCalls resp = true → chat hist = Except.ok resp →
      (agenticLoopAux ops eventTs chat budget resp s hist msgs).batches.length =
        hist.length + budget ∧
      (agenticLoopAux ops eventTs chat budget resp s hist msgs).err = none ∧
      (∀ r, chat (agenticLoopAux ops eventTs chat budget resp s hist msgs).batches =
          Except.ok r →
        (agenticLoopAux ops eventTs chat budget resp s hist msgs).finalResp = some r) := by
  intro budget
  induction budget with
  | zero =>
    intro resp s hist msgs hcalls hresp
    refine ⟨by show hist.length = hist.length + 0; omega, rfl, ?_⟩
    intro r hr
    have hr' : chat hist = Except.ok r := hr
    have heq : Except.ok (ε := JStr) resp = Except.ok r := hresp.symm.trans hr'
    injection heq with h
    show some resp = some r
    rw [h]
  | succ b ih =>
    intro resp s hist msgs hcalls hresp
    simp only [agenticLoopAux]
    rw [if_pos hcalls]
    rcases hE : execBatch ops eventTs (resp.functionCalls.getD []) s with ⟨bmsgs, results, s'⟩
    dsimp only
    obtain ⟨r', hr', hc'⟩ := hchat (hist ++ [results])
    rw [hr']
    obtain ⟨ih1, ih2, ih3⟩ := ih r' s' (hist ++ [results]) (msgs ++ bmsgs) hc' hr'
    refine ⟨?_, ih2, ih3⟩
    rw [ih1, List.length_append, List.length_singleton]
    omega

/-- Supporting lemma: a clean loop exit with a final response assembles the
transcript ending in the final-answer edit. -/
theorem captureAssemble_ok {σ : Type} (lo : LoopOut σ) (r : ProviderResponse)
    (he : lo.err = none) (hf : lo.finalResp = some r) :
    captureAssemble lo =
      { msgs := captureStatusMsgs ++ lo.msgs ++ [Msg.finalAnswer r.text]
      , batches := lo.batches, finalResp := some r, err := none, state := lo.state } := by
  unfold captureAssemble
  rw [he, hf]

/-- Supporting lemma: assembly preserves the executed batches. -/
theorem captureAssemble_batches {σ : Type} (lo : LoopOut σ) :
    (captureAssemble lo).batches = lo.batches := by
  unfold captureAssemble
  split <;> rfl

/-- Supporting lemma: the outer `catch` preserves the executed batches. -/
theorem handleCapture_batches {σ : Type} (deps : CaptureDeps σ) (event : SlackEvent) :
    (handleCapture deps event).batches = (innerCapture deps event).batches := by
  simp only [handleCapture]
  split <;> rfl

/-- Supporting lemma: without an escaped exception the handler returns the
`try` body's outcome unchanged. -/
theorem handleCapture_of_err_none {σ : Type} (deps : CaptureDeps σ) (event : SlackEvent)
    (h : (innerCapture deps event).err = none) :
    handleCapture deps event = innerCapture deps event := by
  simp only [handleCapture]
  rw [h]

/-- Supporting lemma: on a fresh (non-thread) event with a working provider,
the handler body is the assembled agentic loop. -/
theorem innerCapture_of_ok {σ : Type} (ops : StoreOps σ) (s0 : σ) (event : SlackEvent)
    (hthread : event.thread_ts = none) (resp0 : ProviderResponse) (chat : ChatFn) :
    innerCapture { ops := ops, state0 := s0, startChat := Except.ok (resp0, chat) } event =
      captureAssemble (agenticLoopAux ops event.ts chat 5 resp0 s0 [] []) := by
  unfold innerCapture
  rw [show (event.thread_ts).isSome = false from by rw [hthread]; rfl]
  rfl

/-- C1: for every provider that requests further tool calls on each turn,
the agentic loop in `handleCapture` performs at most 5 tool-execution
iterations — exactly 5 under such a provider — terminates without an
escaped exception, and delivers as the final user-visible answer whatever
text the provider most recently produced. -/
theorem c1_loop_bounded {σ : Type} (ops : StoreOps σ) (s0 : σ) (event : SlackEvent)
    (resp0 : ProviderResponse) (chat : ChatFn)
    (hthread : event.thread_ts = none)
    (hchat : ∀ h', ∃ r, chat h' = Except.ok r ∧ jsHasCalls r = true)
    (h0 : jsHasCalls resp0 = true) :
    (handleCapture { ops := ops, state0 := s0, startChat := Except.ok (resp0, chat) }
      event).err = none ∧
    (handleCapture { ops := ops, state0 := s0, startChat := Except.ok (resp0, chat) }
      event).batches.length = 5 ∧
    (∀ r, chat (handleCapture { ops := ops, state0 := s0, startChat := Except.ok (resp0, chat) }
        event).batches = Except.ok r →
      (handleCapture { ops := ops, state0 := s0, startChat := Except.ok (resp0, chat) }
        event).finalResp = some r ∧
      (handleCapture { ops := ops, state0 := s0, startChat := Except.ok (resp0, chat) }
        event).msgs.getLast? = some (Msg.finalAnswer r.text)) ∧
    (∀ (resp0' : ProviderResponse) (chat' : ChatFn),
      (handleCapture { ops := ops, state0 := s0, startChat := Except.ok (resp0', chat') }
        event).batches.length ≤ 5) := by
  have hinner := innerCapture_of_ok ops s0 event hthread resp0 chat
  rcases hE : execBatch ops event.ts (resp0.functionCalls.getD []) s0 with ⟨bmsgs, results, s1⟩
  obtain ⟨r1, hr1, hc1⟩ := hchat [results]
  have hstep : agenticLoopAux ops event.ts chat 5 resp0 s0 [] [] =
      agenticLoopAux ops event.ts chat 4 r1 s1 [results] bmsgs := by
    show agenticLoopAux ops event.ts chat (4 + 1) resp0 s0 [] [] = _
    rw [agenticLoopAux]
    rw [if_pos h0]
    dsimp only [List.nil_append]
    rw [hE]
    dsimp only [List.nil_append]
    rw [hr1]
  obtain ⟨hlen, herr, hfin⟩ :=
    agenticLoopAux_always ops event.ts chat hchat 4 r1 s1 [results] bmsgs hc1 hr1
  have herr5 : (agenticLoopAux ops event.ts chat 5 resp0 s0 [] []).err = none := by
    rw [hstep]
    exact herr
  have hlen5 : (agenticLoopAux ops event.ts chat 5 resp0 s0 [] []).batches.length = 5 := by
    rw [hstep, hlen]
    rfl
  obtain ⟨rf, hrf, _⟩ := hchat (agenticLoopAux ops event.ts chat 5 resp0 s0 [] []).batches
  have hfr5 : (agenticLoopAux ops event.ts chat 5 resp0 s0 [] []).finalResp = some rf := by
    rw [hstep]
    rw [hstep] at hrf
    exact hfin rf hrf
  have hca := captureAssemble_ok (agenticLoopAux ops event.ts chat 5 resp0 s0 [] []) rf
    herr5 hfr5
  have hic : innerCapture { ops := ops, state0 := s0, startChat := Except.ok (resp0, chat) }
      event =
      { msgs := captureStatusMsgs ++ (agenticLoopAux ops event.ts chat 5 resp0 s0 [] []).msgs ++
          [Msg.finalAnswer rf.text]
      , batches := (agenticLoopAux ops event.ts chat 5 resp0 s0 [] []).batches
      , finalResp := some rf, err := none
      , state := (agenticLoopAux ops event.ts chat 5 resp0 s0 [] []).state } :=
    hinner.trans hca
  have hhc : handleCapture { ops := ops, state0 := s0, startChat := Except.ok (resp0, chat) }
      event = innerCapture { ops := ops, state0 := s0, startChat := Except.ok (resp0, chat) }
      event :=
    handleCapture_of_err_none _ _ (by rw [hic])
  refine ⟨by rw [hhc, hic], by rw [hhc, hic]; exact hlen5, ?_, ?_⟩
  · intro r hr
    rw [hhc, hic] at hr
    have hr' : chat (agenticLoopAux ops event.ts chat 5 resp0 s0 [] []).batches =
        Except.ok r := hr
    have heq : Except.ok (ε := JStr) rf = Except.ok r := hrf.symm.trans hr'
    injection heq with hq
    subst hq
    refine ⟨by rw [hhc, hic], ?_⟩
    rw [hhc, hic]
    show (captureStatusMsgs ++ (agenticLoopAux ops event.ts chat 5 resp0 s0 [] []).msgs ++
      [Msg.finalAnswer rf.text]).getLast? = some (Msg.finalAnswer rf.text)
    exact List.getLast?_concat _
  · intro resp0' chat'
    rw [handleCapture_batches, innerCapture_of_ok ops s0 event hthread resp0' chat',
      captureAssemble_batches]
    exact agenticLoopAux_batches_le ops event.ts chat' 5 resp0' s0 [] []

/-- Witness for C1 with a provider that always requests one more search
call. -/
theorem c1_loop_bounded_witness :
    fixtureEvent.thread_ts = none ∧
    jsHasCalls (fixtureResp ("first")) = true ∧
    (handleCapture
      { ops := notionOps, state0 := fixtureStore2
      , startChat := Except.ok (fixtureResp ("first"), fixtureChat) }
      fixtureEvent).batches.length = 5 :=
  ⟨rfl, rfl,
    (c1_loop_bounded notionOps fixtureStore2 fixtureEvent (fixtureResp ("first")) fixtureChat
      rfl (fun _ => ⟨fixtureResp ("again"), rfl, rfl⟩) rfl).2.1⟩

/-- Witness for C6 on a two-task store whose titles both match the term. -/
theorem c6_archive_all_witness :
    List.Nodup (fixtureStore2.pages.map (fun p => p.pageId)) ∧
    (dispatchResult notionOps (("1.1").toList)
        { name := ("archive_tasks").toList, args := { searchTerm := some (("Task").toList) } }
        fixtureStore2).1 =
      ToolResult.archiveRes (searchTasksImpl (some (("Task").toList)) fixtureStore2).length :=
  ⟨by decide,
    (c6_archive_all fixtureStore2 (("Task").toList) (("1.1").toList) (by decide)).1⟩

end SecondBrain
